import Mathlib

/-!
Verification development for the resume-generator application
(`app.py` and `app-working-pdfnotwell.py`).

The development shallowly embeds the data model and the text-processing
logic of the two Python files:

* the JSON-driven Document model, the markup serializer
  (`create_text_resume` in `app.py`) and the PDF layout
  (`create_professional_pdf` in `app.py`), the latter modelled as the
  stream of emitted cell instructions (fonts, fill colours and vertical
  spacing are elided, since no property here mentions them);
* the markup-driven renderer of `app-working-pdfnotwell.py`
  (`create_professional_pdf`), that is: the section splitter driven by
  the header pattern, and the per-section line interpreters, again as
  an instruction stream;
* CPython `textwrap.wrap` under the default settings the code uses;
* the fenced-block stripping and JSON decoding of
  `get_customized_resume_json` in `app.py`, with a character-level
  model of `json.loads`.

Python strings are modelled as Lean `String`s; the string primitives the
code relies on (`strip`, `split`, `startswith`, slicing, `join`) are
re-implemented over `List Char` so that every definition is executable
and amenable to induction.  `str.strip()` is modelled over the six ASCII
whitespace characters, which covers every input appearing in the
theorems below.
-/

namespace ResumeGen

/-! ## Character-list string toolkit (models of Python `str` primitives) -/

/-- The six characters of Python `string.whitespace`. -/
def wsChars : List Char := [' ', '\t', '\n', '\x0b', '\x0c', '\r']

def inChars (set : List Char) (c : Char) : Bool := set.contains c

/-- Drop the characters of `set` from the front of a character list. -/
def stripLeftC (set : List Char) (l : List Char) : List Char :=
  l.dropWhile (inChars set)

/-- Drop the characters of `set` from the back of a character list. -/
def stripRightC (set : List Char) (l : List Char) : List Char :=
  (l.reverse.dropWhile (inChars set)).reverse

/-- Python `str.strip(chars)` over character lists. -/
def stripC (set : List Char) (l : List Char) : List Char :=
  stripRightC set (stripLeftC set l)

/-- Python `s.strip(chars)`. -/
def pyStripChars (set : String) (s : String) : String :=
  String.mk (stripC set.data s.data)

/-- Python `s.strip()` (ASCII whitespace). -/
def pyStrip (s : String) : String := String.mk (stripC wsChars s.data)

/-- Python `s.strip(c)` for a single character. -/
def pyStripChar (c : Char) (s : String) : String := String.mk (stripC [c] s.data)

/-- Python `s.startswith(pre)`. -/
def strStartsWith (s pre : String) : Bool := pre.data.isPrefixOf s.data

/-- Python `s.endswith(suf)`. -/
def strEndsWith (s suf : String) : Bool := suf.data.isSuffixOf s.data

/-- Python slice `s[i:j]` for non-negative bounds (clamping like Python). -/
def strSlice (s : String) (i j : Nat) : String :=
  String.mk ((s.data.drop i).take (j - i))

/-- Python `s[i:]`. -/
def strDrop (s : String) (i : Nat) : String := String.mk (s.data.drop i)

/-- Python `s[:i]`. -/
def strTake (s : String) (i : Nat) : String := String.mk (s.data.take i)

/-- Python `''.join` over a list of strings. -/
def strJoin (ls : List String) : String := String.mk (ls.flatMap String.data)

/-- Concatenation-style `sep.join(xs)` at the character-list level. -/
def icalate (sep : List Char) : List (List Char) → List Char
  | [] => []
  | [x] => x
  | x :: y :: xs => x ++ sep ++ icalate sep (y :: xs)

/-- Python `sep.join(ls)`. -/
def strIntercalate (sep : String) (ls : List String) : String :=
  String.mk (icalate sep.data (ls.map String.data))

/-- Split a character list at every occurrence of `c`
(Python `s.split(c)` semantics: `"" ↦ [""]`, trailing separator keeps
an empty final piece). -/
def splitOnChar (c : Char) : List Char → List (List Char)
  | [] => [[]]
  | x :: xs =>
    let r := splitOnChar c xs
    if x = c then [] :: r
    else
      match r with
      | h :: t => (x :: h) :: t
      | [] => [[x]]

/-- Python `content.split(sep)` for a one-character separator. -/
def pySplitLines (s : String) : List String :=
  (splitOnChar '\n' s.data).map String.mk

/-- Python `"\n".join(lines)`. -/
def joinLines (ls : List String) : String :=
  String.mk (icalate ['\n'] (ls.map String.data))

/-- Split at the first occurrence of `c`: the pair around the first `c`,
or `none` when `c` does not occur (Python `s.split(c, 1)`). -/
def splitFirstAux (c : Char) : List Char → Option (List Char × List Char)
  | [] => none
  | x :: xs =>
    if x = c then some ([], xs)
    else (splitFirstAux c xs).map (fun p => (x :: p.1, p.2))

/-- Python `s.split(c, 1)` returning `none` when no separator occurs. -/
def splitFirst (c : Char) (s : String) : Option (String × String) :=
  (splitFirstAux c s.data).map (fun p => (String.mk p.1, String.mk p.2))

/-- Does the character occur in the string? -/
def strHasChar (c : Char) (s : String) : Bool := s.data.contains c

/-- Holds when the string has no newline character. -/
def noNl (s : String) : Bool := !(strHasChar '\n' s)

/-- Maximal runs of whitespace-separated words of a string
(used to compare strings modulo whitespace). -/
def wordsAux (cur : List Char) : List Char → List (List Char)
  | [] => if cur = [] then [] else [cur.reverse]
  | c :: cs =>
    if inChars wsChars c then
      if cur = [] then wordsAux [] cs else cur.reverse :: wordsAux [] cs
    else wordsAux (c :: cur) cs

/-- The whitespace-delimited words of a string; two strings are equal
modulo whitespace exactly when their word lists coincide. -/
def wsWords (s : String) : List String := (wordsAux [] s.data).map String.mk

/-! ## Model of CPython `textwrap.wrap`

The code calls `textwrap.wrap(text, width=…)` with all other options at
their defaults: `expand_tabs=True` (tabsize 8), `replace_whitespace=True`,
`drop_whitespace=True`, `break_long_words=True`, `break_on_hyphens=True`,
empty indents, `max_lines=None`.

`_munge_whitespace` expands tabs and maps the remaining five special
whitespace characters to a space.  `_split` then cuts the munged text
into chunks; for text containing no `-` character the hyphen and em-dash
alternatives of `wordsep_re` are inert and the split degenerates to the
alternating maximal runs of spaces and non-spaces, which is what
`splitRuns` computes — the model is faithful for hyphen-free input, and
the `_wrap_chunks` stage (`wrapStep`/`wrapGo` below, including
`_handle_long_word` with its hyphen search) is faithful for every chunk
list. -/

/-- Python `str.expandtabs(8)`: a tab advances the column to the next multiple
of 8; the column resets after a newline or carriage return. -/
def expandTabs : Nat → List Char → List Char
  | _, [] => []
  | col, c :: cs =>
    if c = '\t' then
      let n := 8 - col % 8
      List.replicate n ' ' ++ expandTabs (col + n) cs
    else if c = '\n' || c = '\r' then c :: expandTabs 0 cs
    else c :: expandTabs (col + 1) cs

/-- CPython `TextWrapper._munge_whitespace`: expand tabs, then replace each of
the six whitespace characters by a space. -/
def munge (s : String) : String :=
  String.mk ((expandTabs 0 s.data).map (fun c => if inChars wsChars c then ' ' else c))

/-- Accumulate the current (reversed, non-empty) run while scanning;
a change between space and non-space closes the run. -/
def splitRunsAux (cur : List Char) : List Char → List String
  | [] => [String.mk cur.reverse]
  | c :: cs =>
    match cur with
    | [] => splitRunsAux [c] cs
    | p :: _ =>
      if (c == ' ') == (p == ' ') then splitRunsAux (c :: cur) cs
      else String.mk cur.reverse :: splitRunsAux [c] cs

/-- Alternating maximal runs of spaces / non-spaces (the effect of
`TextWrapper._split` on munged text without hyphens); empty input gives
no chunks. -/
def splitRuns : List Char → List String
  | [] => []
  | c :: cs => splitRunsAux [c] cs

/-- Total character length of a chunk list. -/
def sumLen (ls : List String) : Nat := ls.foldr (fun s n => s.length + n) 0

/-- The greedy inner loop of `_wrap_chunks`: take chunks while the
running length plus the next chunk stays within `w`. -/
def greedyTake (w : Nat) : Nat → List String → List String × List String
  | _, [] => ([], [])
  | cur, c :: cs =>
    if cur + c.length ≤ w then
      let p := greedyTake w (cur + c.length) cs
      (c :: p.1, p.2)
    else ([], c :: cs)

/-- Scan for the last hyphen, tracking the running index and the best
index found so far. -/
def rfindHyphenAux : List Char → Nat → Option Nat → Option Nat
  | [], _, best => best
  | c :: cs, i, best => rfindHyphenAux cs (i + 1) (if c = '-' then some i else best)

/-- Python `chunk.rfind('-', 0, bound)`: the greatest index `i < bound` holding
`'-'`, or `none`. -/
def rfindHyphen (cs : List Char) (bound : Nat) : Option Nat :=
  rfindHyphenAux (cs.take bound) 0 none

/-- Where `_handle_long_word` cuts the long chunk: at `space_left`, or
just after the last hyphen that fits (default `break_on_hyphens=True`). -/
def hyphenEnd (c : String) (spaceLeft : Nat) : Nat :=
  if spaceLeft < c.length then
    match rfindHyphen c.data spaceLeft with
    | some h =>
      if 0 < h && (c.data.take h).any (fun x => !(x = '-')) then h + 1 else spaceLeft
    | none => spaceLeft
  else spaceLeft

/-- CPython `TextWrapper._handle_long_word` (defaults: `break_long_words=True`,
`break_on_hyphens=True`): append a prefix of the long chunk to the
current line, pushing the remainder back onto the chunk stream. -/
def handleLong (w : Nat) (taken : List String) (c : String) : List String × String :=
  let spaceLeft := if w < 1 then 1 else w - sumLen taken
  (taken ++ [strTake c (hyphenEnd c spaceLeft)], strDrop c (hyphenEnd c spaceLeft))

/-- Drop a trailing pure-whitespace chunk from the current line
(`drop_whitespace` handling at the end of a line). -/
def dropTrailingWsChunk (ls : List String) : List String :=
  match ls.getLast? with
  | some l => if pyStrip l = "" then ls.dropLast else ls
  | none => ls

/-- Drop a leading pure-whitespace chunk, but only once a line has
already been produced (`drop_whitespace` handling, `if … and lines`). -/
def dropLeadingWs (isFirst : Bool) (chunks : List String) : List String :=
  if isFirst then chunks
  else
    match chunks with
    | c :: cs => if pyStrip c = "" then cs else c :: cs
    | [] => []

/-- Greedily fill one line and, when the next chunk alone exceeds the
width, break it with `handleLong`. Returns the current-line chunks and
the remaining chunk stream. -/
def fillLine (w : Nat) (chunks : List String) : List String × List String :=
  let p := greedyTake w 0 chunks
  match p.2 with
  | c :: cs =>
    if w < c.length then
      let r := handleLong w p.1 c
      (r.1, r.2 :: cs)
    else (p.1, c :: cs)
  | [] => (p.1, [])

/-- One iteration of the `while chunks` loop of `_wrap_chunks`:
optionally drop a leading whitespace chunk, greedily fill the line,
split an over-long chunk, drop a trailing whitespace chunk, and emit
the line if anything remains on it. -/
def wrapStep (w : Nat) (isFirst : Bool) (chunks : List String) :
    Option String × List String :=
  let q := fillLine w (dropLeadingWs isFirst chunks)
  let line := dropTrailingWsChunk q.1
  (if line.isEmpty then none else some (strJoin line), q.2)

/-- The outer loop of `_wrap_chunks`, fuelled (each iteration of the
Python loop consumes at least one character or chunk, so the fuel used
by `textwrapWrap` below suffices). -/
def wrapGo (w : Nat) : Nat → Bool → List String → List String
  | 0, _, _ => []
  | _, _, [] => []
  | Nat.succ fuel, isFirst, chunks =>
    let r := wrapStep w isFirst chunks
    match r.1 with
    | some line => line :: wrapGo w fuel false r.2
    | none => wrapGo w fuel isFirst r.2

/-- CPython `textwrap.wrap(s, width=w)` under the default settings used by the
code (faithful for hyphen-free text, see the section comment). -/
def textwrapWrap (s : String) (w : Nat) : List String :=
  let chunks := splitRuns (munge s).data
  wrapGo w (sumLen chunks + chunks.length + 1) true chunks

/-! ## Document model

The canonical structure produced by JSON decoding (`resume_data` in
`app.py`).  Optional JSON keys are `Option String`; Python's
`d.get(k, '')` becomes `Option.getD _ ""` and the truthiness test
`if d.get(k):` becomes `truthyO` (both `None` and `''` are falsy).
`contact_info` itself defaults to `{}` when absent, which is
indistinguishable from an all-`none` record in every use site, so it is
stored directly.  `projects` keeps the `none` / `some []` distinction
(both falsy, like Python's missing key / empty list). -/

structure ContactInfo where
  location : Option String
  phone : Option String
  email : Option String
  linkedin : Option String
  github : Option String
  portfolio : Option String
  additional : Option String
  deriving DecidableEq

structure Job where
  title : Option String
  company : Option String
  location : Option String
  duration : Option String
  achievements : List String
  deriving DecidableEq

structure Edu where
  degree : Option String
  institution : Option String
  location : Option String
  duration : Option String
  details : List String
  deriving DecidableEq

structure Project where
  name : Option String
  details : List String
  deriving DecidableEq

structure Document where
  name : Option String
  contact_info : ContactInfo
  professional_summary : Option String
  skills : List String
  work_experience : List Job
  education : List Edu
  projects : Option (List Project)
  deriving DecidableEq

/-- Python truthiness of an optional string: `None` and `''` are falsy. -/
def truthyO : Option String → Bool
  | none => false
  | some s => !(s = "")

/-- Python truthiness of `resume_data.get('projects')`: a missing key
and an empty list are both falsy. -/
def truthyProj : Option (List Project) → Bool
  | none => false
  | some l => !l.isEmpty

/-- Python `resume_data.get('name', 'Name')`. -/
def nameD (d : Document) : String := d.name.getD "Name"

/-- The contribution of one optional field to a joined contact line:
nothing when absent or empty (`if contact_info.get(k): parts.append(…)`). -/
def optPart : Option String → List String
  | none => []
  | some s => if s = "" then [] else [s]

/-- Same, with a label prefix (`"LinkedIn: " + v` etc.). -/
def optPartWith (pre : String) (o : Option String) : List String :=
  (optPart o).map (fun s => pre ++ s)

/-! ## `create_text_resume` (app.py): markup serialization -/

/-- The seven-field contact join of `create_text_resume`
(`location, phone, email, linkedin, github, portfolio, additional`). -/
def contactParts7 (c : ContactInfo) : List String :=
  optPart c.location ++ optPart c.phone ++ optPart c.email ++ optPart c.linkedin ++
    optPart c.github ++ optPart c.portfolio ++ optPart c.additional

/-- The `" (loc)"` decoration of an entry header line. -/
def locDecor (o : Option String) : String :=
  if truthyO o then " (" ++ o.getD "" ++ ")" else ""

/-- The `" - duration"` decoration of an entry header line. -/
def durDecor (o : Option String) : String :=
  if truthyO o then " - " ++ o.getD "" else ""

/-- Everything after the first comma of an entry header line:
company plus optional location/duration decorations. -/
def jobTail (j : Job) : String :=
  j.company.getD "" ++ locDecor j.location ++ durDecor j.duration

def eduTail (e : Edu) : String :=
  e.institution.getD "" ++ locDecor e.location ++ durDecor e.duration

/-- The f-string `"* " + title + ", " + company` plus optional location/duration text. -/
def jobHeader (j : Job) : String :=
  "* " ++ j.title.getD "" ++ ", " ++ jobTail j

def eduHeader (e : Edu) : String :=
  "* " ++ e.degree.getD "" ++ ", " ++ eduTail e

/-- The lines a work-experience entry contributes to the text resume. -/
def jobLines (j : Job) : List String :=
  jobHeader j :: j.achievements.map (fun a => "  + " ++ a) ++ [""]

def eduLines (e : Edu) : List String :=
  eduHeader e :: e.details.map (fun a => "  + " ++ a) ++ [""]

def projLines (p : Project) : List String :=
  ("* " ++ p.name.getD "") :: p.details.map (fun a => "  + " ++ a) ++ [""]

/-- The line list built by `create_text_resume` before the final
`"\n".join`. -/
def textResumeLines (d : Document) : List String :=
  ["**" ++ nameD d ++ "**", "",
   "**Contact Information:**",
   strIntercalate " | " (contactParts7 d.contact_info), "",
   "**Professional Summary:**",
   d.professional_summary.getD "", "",
   "**Skills:**"]
  ++ d.skills.map (fun s => "* " ++ s)
  ++ [""]
  ++ ["**Work Experience:**"]
  ++ d.work_experience.flatMap jobLines
  ++ ["**Education:**"]
  ++ d.education.flatMap eduLines
  ++ (if truthyProj d.projects then
        "**Personal Projects:**" :: (d.projects.getD []).flatMap projLines
      else [])

/-- Models `create_text_resume(resume_data)`. -/
def createTextResume (d : Document) : String := joinLines (textResumeLines d)

/-! ## `create_professional_pdf` (app.py): JSON-driven layout

Modelled as the stream of emitted cell instructions.  `banner` is a
shaded, bordered section-header cell; `txt` an ordinary text cell;
`glyph` the `chr(149)` bullet cell; `indent` an empty spacer cell of
the given width.  Font switches, fill colours and `pdf.ln` spacing are
elided: no claim mentions them. -/

inductive Instr where
  | nameC (s : String)
  | banner (s : String)
  | txt (s : String)
  | glyph
  | indent (n : Nat)
  deriving DecidableEq

/-- The first contact line: `location | phone | email`, present fields
only. -/
def parts3 (c : ContactInfo) : List String :=
  optPart c.location ++ optPart c.phone ++ optPart c.email

def contactLine1 (c : ContactInfo) : String := strIntercalate " | " (parts3 c)

/-- The second contact line's parts: labelled linkedin/github/portfolio
plus unlabelled additional, present fields only. -/
def onlineLinks (c : ContactInfo) : List String :=
  optPartWith "LinkedIn: " c.linkedin ++ optPartWith "GitHub: " c.github ++
    optPartWith "Portfolio: " c.portfolio ++ optPart c.additional

def contactSection (c : ContactInfo) : List Instr :=
  [Instr.banner "Contact Information", Instr.txt (contactLine1 c)]
  ++ (if (onlineLinks c).isEmpty then []
      else [Instr.txt (strIntercalate " | " (onlineLinks c))])

def summarySection (o : Option String) : List Instr :=
  Instr.banner "Professional Summary" :: (textwrapWrap (o.getD "") 100).map Instr.txt

def skillsSection (sk : List String) : List Instr :=
  Instr.banner "Skills" :: sk.flatMap (fun s => [Instr.glyph, Instr.txt s])

/-- One achievement / detail bullet: indent cell, glyph cell, then the
width-85 wrapped lines, continuations after a deeper indent cell. -/
def achInstrs (a : String) : List Instr :=
  [Instr.indent 10, Instr.glyph]
  ++ (match textwrapWrap a 85 with
      | [] => []
      | l :: ls => Instr.txt l :: ls.flatMap (fun x => [Instr.indent 13, Instr.txt x]))

/-- The `company` text, plus `", location"` when the location is truthy. -/
def companyLoc (j : Job) : String :=
  j.company.getD "" ++ (if truthyO j.location then ", " ++ j.location.getD "" else "")

def institutionLoc (e : Edu) : String :=
  e.institution.getD "" ++ (if truthyO e.location then ", " ++ e.location.getD "" else "")

def jobInstrs (j : Job) : List Instr :=
  Instr.txt (j.title.getD "") :: Instr.txt (companyLoc j) ::
    (if truthyO j.duration then [Instr.txt (j.duration.getD "")] else [])
  ++ j.achievements.flatMap achInstrs

def eduInstrs (e : Edu) : List Instr :=
  Instr.txt (e.degree.getD "") :: Instr.txt (institutionLoc e) ::
    (if truthyO e.duration then [Instr.txt (e.duration.getD "")] else [])
  ++ e.details.flatMap achInstrs

def workSection (jobs : List Job) : List Instr :=
  Instr.banner "Work Experience" :: jobs.flatMap jobInstrs

def eduSection (es : List Edu) : List Instr :=
  Instr.banner "Education" :: es.flatMap eduInstrs

def projInstrs (p : Project) : List Instr :=
  Instr.txt (p.name.getD "") :: p.details.flatMap achInstrs

/-- Emitted only when `resume_data.get('projects')` is truthy. -/
def projSection (o : Option (List Project)) : List Instr :=
  if truthyProj o then
    Instr.banner "Personal Projects" :: (o.getD []).flatMap projInstrs
  else []

/-- The full instruction stream of `create_professional_pdf` (app.py). -/
def renderPdf (d : Document) : List Instr :=
  Instr.nameC (nameD d) :: contactSection d.contact_info
  ++ summarySection d.professional_summary
  ++ skillsSection d.skills
  ++ workSection d.work_experience
  ++ eduSection d.education
  ++ projSection d.projects

/-- The section banners of an instruction stream, in emission order. -/
def bannersOf (is : List Instr) : List String :=
  is.filterMap (fun i => match i with | Instr.banner s => some s | _ => none)

/-! ## `create_professional_pdf` (app-working-pdfnotwell.py):
markup parsing and rendering

The function takes the raw markup text: line 0 is the name
(`lines[0].strip('*')`); the remaining lines are split into sections at
every line matching `re.match(r'\*\*(.*?):\*\*', line)`; content lines
are stored whitespace-stripped; the final section is kept only when its
content is non-empty; sections are then rendered by name-dispatched
interpreters.  The renderers are modelled as `RLine` streams: one
constructor per emitting branch (fonts elided; the indent and glyph
cells in front of a bullet are folded into `bulletGlyph`). -/

/-- Does the character list begin with two asterisks? -/
def startsStars (l : List Char) : Bool :=
  l.take 2 = ['*', '*']

/-- The non-greedy group of `(.*?):\*\*`: the characters before the
leftmost `":**"`, or `none`. -/
def hdrGroup : List Char → Option (List Char)
  | [] => none
  | c :: rest =>
    if c = ':' && startsStars rest then some []
    else (hdrGroup rest).map (fun g => c :: g)

/-- Models `re.match(r'\*\*(.*?):\*\*', line)`: the label when the line starts
with `**` and contains a later `":**"`. -/
def matchHeader (l : String) : Option String :=
  match l.data with
  | c1 :: c2 :: rest =>
    if c1 = '*' && c2 = '*' then (hdrGroup rest).map String.mk else none
  | _ => none

/-- Python-`dict` assignment on an insertion-ordered association list:
overwrite in place, else append. -/
def dictSet (d : List (String × List String)) (k : String) (v : List String) :
    List (String × List String) :=
  if d.any (fun p => p.1 = k) then
    d.map (fun p => if p.1 = k then (k, v) else p)
  else d ++ [(k, v)]

/-- The section-splitting loop: `cur` is the open section (name and
accumulated stripped lines).  A header line saves the open section
(even when empty) and opens a new one; a content line is appended
stripped when a section is open and discarded otherwise; at the end the
open section is saved only when its content is non-empty. -/
def parseGo (cur : Option (String × List String))
    (dict : List (String × List String)) :
    List String → List (String × List String)
  | [] =>
    match cur with
    | some (k, content) => if content.isEmpty then dict else dictSet dict k content
    | none => dict
  | l :: ls =>
    match matchHeader l with
    | some label =>
      -- an empty label makes `current_section` falsy in Python: nothing
      -- is appended to it and it is never saved, like no open section
      parseGo (if label = "" then none else some (label, []))
        (match cur with
          | some (k, content) => dictSet dict k content
          | none => dict) ls
    | none =>
      match cur with
      | some (k, content) => parseGo (some (k, content ++ [pyStrip l])) dict ls
      | none => parseGo none dict ls

structure ParsedResume where
  name : String
  sections : List (String × List String)
  deriving DecidableEq

/-- The name extraction and section split of
`create_professional_pdf(content, …)`. -/
def parseResume (content : String) : ParsedResume :=
  let lines := pySplitLines content
  { name := pyStripChar '*' (lines.headD "")
    sections := parseGo none [] lines.tail }

/-- Stored content of a section, `[]` when the section is absent. -/
def sectionContent (p : ParsedResume) (k : String) : List String :=
  (p.sections.lookup k).getD []

/-- One rendered cell of the markup-driven layout; constructors follow
the emitting branches of the Python dispatch. -/
inductive RLine where
  | contact (s : String)
  | skill (s : String)
  | skillPlain (s : String)
  | eTitle (s : String)
  | eCompany (s : String)
  | bulletGlyph
  | bulletHead (s : String)
  | bulletCont (s : String)
  | plainLine (s : String)
  deriving DecidableEq

/-- The `"Contact Information"` branch: join the non-empty stored lines
with `" | "` and wrap at width 100. -/
def renderContactW (content : List String) : List RLine :=
  (textwrapWrap (strIntercalate " | " (content.filter (fun c => !(c = "")))) 100).map
    RLine.contact

/-- The `"Skills"` branch: `*`-lines become bullet cells (marker
stripped), other non-empty lines plain cells. -/
def renderSkillsW (content : List String) : List RLine :=
  content.flatMap (fun l =>
    if strStartsWith l "*" then [RLine.skill (pyStrip (strDrop l 1))]
    else if l = "" then [] else [RLine.skillPlain l])

/-- An entry-opening `*`-line of Work Experience / Education:
`line.strip('* ')` then `split(',', 1)` — title plus optional
company text. -/
def renderEntryLine (l : String) : List RLine :=
  match splitFirst ',' (pyStripChars "* " l) with
  | some p => [RLine.eTitle p.1, RLine.eCompany p.2]
  | none => [RLine.eTitle (pyStripChars "* " l)]

/-- A `+`-line: the indent and glyph cells, then the width-85 wrapped
bullet text with continuation cells. -/
def renderBulletLines (t : String) : List RLine :=
  RLine.bulletGlyph ::
    (match textwrapWrap t 85 with
     | [] => []
     | l :: ls => RLine.bulletHead l :: ls.map RLine.bulletCont)

/-- The `"Work Experience"` / `"Education"` branch, line by line. -/
def renderWorkEdu (content : List String) : List RLine :=
  content.flatMap (fun l =>
    if strStartsWith l "*" then renderEntryLine l
    else if strStartsWith l "+" then renderBulletLines (pyStrip (strDrop l 1))
    else if l = "" then [] else [RLine.plainLine l])

/-- The `"Personal Projects"` branch: `*`-lines are project titles
(no comma split), `+`-lines bullets. -/
def renderProjectsW (content : List String) : List RLine :=
  content.flatMap (fun l =>
    if strStartsWith l "*" then [RLine.eTitle (pyStripChars "* " l)]
    else if strStartsWith l "+" then renderBulletLines (pyStrip (strDrop l 1))
    else if l = "" then [] else [RLine.plainLine l])

/-- The default branch (used for `"Professional Summary"`): wrap each
non-empty line at width 100. -/
def renderDefaultW (content : List String) : List RLine :=
  content.flatMap (fun l =>
    if l = "" then [] else (textwrapWrap l 100).map RLine.plainLine)

/-! ### Round-trip apparatus

What the markup-driven interpreter can recover from a serialized entry:
the title (the text before the serializer's comma), the rest of the
header line as one opaque company string, and each achievement/detail
as its width-85 wrapped bullet cells. -/

def expectedJobR (j : Job) : List RLine :=
  RLine.eTitle (j.title.getD "") :: RLine.eCompany (" " ++ jobTail j) ::
    j.achievements.flatMap renderBulletLines

def expectedEduR (e : Edu) : List RLine :=
  RLine.eTitle (e.degree.getD "") :: RLine.eCompany (" " ++ eduTail e) ::
    e.details.flatMap renderBulletLines

def expectedProjR (p : Project) : List RLine :=
  RLine.eTitle (p.name.getD "") :: p.details.flatMap renderBulletLines

def starSp : List Char := ['*', ' ']

def starWs : List Char := '*' :: wsChars

/-- The first character (if any) is neither `*` nor a space. -/
def headOk (s : String) : Bool :=
  match s.data with
  | [] => true
  | c :: _ => !(inChars starSp c)

/-- The last character (if any) is neither `*` nor whitespace. -/
def lastOk (s : String) : Bool :=
  match s.data.getLast? with
  | none => true
  | some c => !(inChars starWs c)

/-- Well-formedness of one work-experience entry for the round trip:
comma-free title whose first character is not a marker, a non-empty
header remainder ending in a plain character, stripped achievements. -/
def tameJob (j : Job) : Bool :=
  headOk (j.title.getD "") && !(strHasChar ',' (j.title.getD ""))
    && lastOk (jobTail j) && !(decide (jobTail j = ""))
    && j.achievements.all (fun a => decide (pyStrip a = a))

def tameEdu (e : Edu) : Bool :=
  headOk (e.degree.getD "") && !(strHasChar ',' (e.degree.getD ""))
    && lastOk (eduTail e) && !(decide (eduTail e = ""))
    && e.details.all (fun a => decide (pyStrip a = a))

def tameProj (p : Project) : Bool :=
  headOk (p.name.getD "") && lastOk (p.name.getD "")
    && p.details.all (fun a => decide (pyStrip a = a))

/-- Well-formedness of a whole Document for the round-trip theorem:
no embedded newlines, a name not decorated with its own asterisks,
stripped free-text fields, no field text that mimics a section header,
and tame entries. -/
def tameDoc (d : Document) : Bool :=
  (textResumeLines d).all noNl
    && decide (pyStripChar '*' (nameD d) = nameD d)
    && decide (pyStrip (strIntercalate " | " (contactParts7 d.contact_info))
        = strIntercalate " | " (contactParts7 d.contact_info))
    && (matchHeader (strIntercalate " | " (contactParts7 d.contact_info))).isNone
    && decide (pyStrip (d.professional_summary.getD "") = d.professional_summary.getD "")
    && (matchHeader (d.professional_summary.getD "")).isNone
    && d.skills.all (fun s => decide (pyStrip s = s))
    && d.work_experience.all tameJob
    && d.education.all tameEdu
    && (d.projects.getD []).all tameProj

/-- A document whose entry title contains a comma and whose entry has
a location and a duration — input for the round-trip counterexample. -/
def c1CounterDoc : Document :=
  { name := some "Jane Doe"
    contact_info :=
      ⟨some "Berlin", none, some "jane@site.io", none, none, none, none⟩
    professional_summary := some "Builds things."
    skills := ["Python"]
    work_experience :=
      [{ title := some "Head of Platform, EMEA", company := some "Acme",
         location := some "Remote", duration := some "2020 to 2023",
         achievements := ["Did stuff"] }]
    education := []
    projects := none }

/-- A well-formed document exercising every section — input for the
round-trip witness. -/
def c1TameDoc : Document :=
  { name := some "Jane Doe"
    contact_info :=
      ⟨some "Berlin", none, some "jane@site.io", none, none, none, none⟩
    professional_summary := some "Builds things."
    skills := ["Python", "Go"]
    work_experience :=
      [{ title := some "Engineer", company := some "Acme",
         location := some "Remote", duration := some "2020",
         achievements := ["Shipped v2"] }]
    education :=
      [{ degree := some "BSc", institution := some "MIT",
         location := none, duration := none, details := ["Honors"] }]
    projects := some [{ name := some "Sidegig", details := ["Built it"] }] }

/-! ## `get_customized_resume_json` (app.py): fence stripping and JSON
decoding

`json.loads` is modelled by a character-level recursive-descent decoder
for the JSON grammar that CPython's `json` module accepts (including
the `NaN` / `Infinity` constants); numbers are kept as their lexemes
(no claim compares distinct spellings of one numeric value), duplicate
object keys are kept in order, and `\uXXXX` escapes become the code
point (surrogate pairing is not needed by any input below). -/

inductive JValue where
  | jnull
  | jbool (b : Bool)
  | jnum (lexeme : String)
  | jstr (s : String)
  | jarr (xs : List JValue)
  | jobj (fields : List (String × JValue))

/-- JSON insignificant whitespace. -/
def isJsonWs (c : Char) : Bool := c = ' ' || c = '\t' || c = '\n' || c = '\r'

def skipWs (cs : List Char) : List Char := cs.dropWhile isJsonWs

def isDigit (c : Char) : Bool := '0' ≤ c && c ≤ '9'

def hexVal (c : Char) : Option Nat :=
  let n := c.toNat
  if isDigit c then some (n - 48)
  else if 97 ≤ n && n ≤ 102 then some (n - 87)
  else if 65 ≤ n && n ≤ 70 then some (n - 55)
  else none

/-- The body of a JSON string after the opening quote (strict mode:
raw control characters are rejected). -/
def parseJStr : Nat → List Char → Option (List Char × List Char)
  | 0, _ => none
  | _, [] => none
  | fuel + 1, c :: rest =>
    if c = '"' then some ([], rest)
    else if c = '\\' then
      match rest with
      | [] => none
      | e :: rest2 =>
        let simple : Option Char :=
          if e = '"' then some '"'
          else if e = '\\' then some '\\'
          else if e = '/' then some '/'
          else if e = 'b' then some '\x08'
          else if e = 'f' then some '\x0c'
          else if e = 'n' then some '\n'
          else if e = 'r' then some '\r'
          else if e = 't' then some '\t'
          else none
        match simple with
        | some ch => (parseJStr fuel rest2).map (fun p => (ch :: p.1, p.2))
        | none =>
          if e = 'u' then
            match rest2 with
            | h1 :: h2 :: h3 :: h4 :: rest3 =>
              match hexVal h1, hexVal h2, hexVal h3, hexVal h4 with
              | some a, some b, some c3, some d =>
                let n := ((a * 16 + b) * 16 + c3) * 16 + d
                (parseJStr fuel rest3).map (fun p => (Char.ofNat n :: p.1, p.2))
              | _, _, _, _ => none
            | _ => none
          else none
    else if c.toNat < 0x20 then none
    else (parseJStr fuel rest).map (fun p => (c :: p.1, p.2))

/-- JSON number lexeme: `-?(0|[1-9]\d*)(\.\d+)?([eE][-+]?\d+)?`. -/
def parseNumLex (cs : List Char) : Option (List Char × List Char) :=
  let sign : List Char × List Char :=
    match cs with
    | '-' :: rest => (['-'], rest)
    | _ => ([], cs)
  match sign.2 with
  | [] => none
  | d :: rest =>
    if !isDigit d then none
    else
      let intPart : List Char × List Char :=
        if d = '0' then ([d], rest)
        else (d :: rest.takeWhile isDigit, rest.dropWhile isDigit)
      let frac : Option (List Char × List Char) :=
        match intPart.2 with
        | '.' :: f :: fr =>
          if isDigit f then
            some ('.' :: f :: fr.takeWhile isDigit, fr.dropWhile isDigit)
          else none
        | _ => some ([], intPart.2)
      match frac with
      | none => none
      | some fp =>
        let expo : Option (List Char × List Char) :=
          match fp.2 with
          | e :: t =>
            if e = 'e' || e = 'E' then
              let st : List Char × List Char :=
                match t with
                | s :: t2 => if s = '+' || s = '-' then ([e, s], t2) else ([e], t)
                | [] => ([e], [])
              match st.2 with
              | x :: xr =>
                if isDigit x then
                  some (st.1 ++ x :: xr.takeWhile isDigit, xr.dropWhile isDigit)
                else none
              | [] => none
            else some ([], fp.2)
          | [] => some ([], fp.2)
        match expo with
        | none => none
        | some ep => some (sign.1 ++ intPart.1 ++ fp.1 ++ ep.1, ep.2)

mutual

/-- One JSON value at the head of the input. -/
def parseVal : Nat → List Char → Option (JValue × List Char)
  | 0, _ => none
  | _, [] => none
  | fuel + 1, c :: rest =>
    if c = '{' then
      match skipWs rest with
      | '}' :: rest2 => some (JValue.jobj [], rest2)
      | rest2 => (parseMembers fuel rest2).map (fun p => (JValue.jobj p.1, p.2))
    else if c = '[' then
      match skipWs rest with
      | ']' :: rest2 => some (JValue.jarr [], rest2)
      | rest2 => (parseElems fuel rest2).map (fun p => (JValue.jarr p.1, p.2))
    else if c = '"' then
      (parseJStr (fuel + 1) rest).map (fun p => (JValue.jstr (String.mk p.1), p.2))
    else if c = 't' then
      match rest with
      | 'r' :: 'u' :: 'e' :: rest2 => some (JValue.jbool true, rest2)
      | _ => none
    else if c = 'f' then
      match rest with
      | 'a' :: 'l' :: 's' :: 'e' :: rest2 => some (JValue.jbool false, rest2)
      | _ => none
    else if c = 'n' then
      match rest with
      | 'u' :: 'l' :: 'l' :: rest2 => some (JValue.jnull, rest2)
      | _ => none
    else if c = 'N' then
      match rest with
      | 'a' :: 'N' :: rest2 => some (JValue.jnum "NaN", rest2)
      | _ => none
    else if c = 'I' then
      match rest with
      | 'n' :: 'f' :: 'i' :: 'n' :: 'i' :: 't' :: 'y' :: rest2 =>
        some (JValue.jnum "Infinity", rest2)
      | _ => none
    else if c = '-' && rest.take 8 = ['I', 'n', 'f', 'i', 'n', 'i', 't', 'y'] then
      some (JValue.jnum "-Infinity", rest.drop 8)
    else
      (parseNumLex (c :: rest)).map (fun p => (JValue.jnum (String.mk p.1), p.2))

/-- Object members, the cursor standing at the first key. -/
def parseMembers : Nat → List Char → Option (List (String × JValue) × List Char)
  | 0, _ => none
  | fuel + 1, cs =>
    match cs with
    | '"' :: rest =>
      match parseJStr (fuel + 1) rest with
      | none => none
      | some (key, rest2) =>
        match skipWs rest2 with
        | ':' :: rest3 =>
          match parseVal fuel (skipWs rest3) with
          | none => none
          | some (v, rest4) =>
            match skipWs rest4 with
            | ',' :: rest5 =>
              (parseMembers fuel (skipWs rest5)).map
                (fun p => ((String.mk key, v) :: p.1, p.2))
            | '}' :: rest5 => some ([(String.mk key, v)], rest5)
            | _ => none
        | _ => none
    | _ => none

/-- Array elements, the cursor standing at the first element. -/
def parseElems : Nat → List Char → Option (List JValue × List Char)
  | 0, _ => none
  | fuel + 1, cs =>
    match parseVal fuel cs with
    | none => none
    | some (v, rest) =>
      match skipWs rest with
      | ',' :: rest2 => (parseElems fuel (skipWs rest2)).map (fun p => (v :: p.1, p.2))
      | ']' :: rest2 => some ([v], rest2)
      | _ => none

end

/-- Models `json.loads(s)`: decode one value, then require only whitespace to
remain. -/
def jsonParse (s : String) : Option JValue :=
  match parseVal (s.data.length + 1) (skipWs s.data) with
  | some (v, rest) => if skipWs rest = [] then some v else none
  | none => none

/-- The fenced-block stripping of `get_customized_resume_json`
(app.py lines 126-131): a trimmed input enclosed in fences loses
exactly `7`/`3` leading and `3` trailing characters and is trimmed
again; anything else passes through unchanged. -/
def stripFence (content : String) : String :=
  let t := pyStrip content
  if strStartsWith t "```json" && strEndsWith t "```" then
    pyStrip (strSlice t 7 (t.length - 3))
  else if strStartsWith t "```" && strEndsWith t "```" then
    pyStrip (strSlice t 3 (t.length - 3))
  else content

/-- Result of the decoding stage of `get_customized_resume_json`:
either the decoded data (with the untouched raw text) or the
`JSONDecodeError` branch
(`{"success": False, "error": …, "raw": content}`). -/
inductive ParseOutcome where
  | ok (data : JValue) (raw : String)
  | jsonError (raw : String)

/-- The parsing part of `get_customized_resume_json` applied to the
model response text. -/
def parseStructured (content : String) : ParseOutcome :=
  match jsonParse (stripFence content) with
  | some v => ParseOutcome.ok v content
  | none => ParseOutcome.jsonError content

/-- The decoded value a raw response yields, when any. -/
def decodedOf (content : String) : Option JValue := jsonParse (stripFence content)

/-- Modelled from the spec: the Document schema of §3 requires a JSON
object at top level (field decoding per §3).  `app.py` performs no such
validation after `json.loads`, so this shape check exists only on the
specification side, for comparison. -/
def documentShaped : JValue → Bool
  | JValue.jobj _ => true
  | _ => false

/-! ## The Generate-Final-PDF step of `main` (app.py lines 672-690)

Straight-line control flow with exceptions as abstract failure flags:
the temporary file is created first; `create_professional_pdf` and the
download-button delivery both either succeed or raise; a raised
exception propagates out of the enclosing `if` block — there is no
`try`/`finally` — so `os.unlink` runs only when every preceding call
succeeded. -/

structure PdfStepTrace where
  tmpCreated : Bool
  unlinkCalled : Bool
  raised : Bool
  deriving DecidableEq

/-- One run of the Generate-Final-PDF block, given whether rendering
and delivery succeed. -/
def pdfStep (renderOk deliverOk : Bool) : PdfStepTrace :=
  if !renderOk then { tmpCreated := true, unlinkCalled := false, raised := true }
  else if !deliverOk then { tmpCreated := true, unlinkCalled := false, raised := true }
  else { tmpCreated := true, unlinkCalled := true, raised := false }

/-! ### Basic lemmas about the toolkit -/

theorem data_mk (l : List Char) : (String.mk l).data = l := rfl

theorem mk_data (s : String) : String.mk s.data = s := by
  cases s; rfl

theorem data_append (a b : String) : (a ++ b).data = a.data ++ b.data := by
  cases a; cases b; rfl

theorem length_mk (l : List Char) : (String.mk l).length = l.length := rfl

theorem str_ext {a b : String} (h : a.data = b.data) : a = b := by
  rw [← mk_data a, ← mk_data b, h]

/-! ### Line-length bound for the wrap model -/

theorem sumLen_nil : sumLen [] = 0 := rfl

theorem sumLen_cons (s : String) (ls : List String) :
    sumLen (s :: ls) = s.length + sumLen ls := rfl

theorem sumLen_append (a b : List String) :
    sumLen (a ++ b) = sumLen a + sumLen b := by
  induction a with
  | nil => simp [sumLen]
  | cons x xs ih => simp [sumLen_cons, ih, Nat.add_assoc]

theorem strJoin_length (ls : List String) : (strJoin ls).length = sumLen ls := by
  induction ls with
  | nil => rfl
  | cons x xs ih =>
    simp only [strJoin, length_mk, List.flatMap_cons, List.length_append] at *
    have hx : x.data.length = x.length := rfl
    rw [hx, ih, sumLen_cons]

theorem greedyTake_bound (w : Nat) (cs : List String) :
    ∀ cur, cur ≤ w → cur + sumLen (greedyTake w cur cs).1 ≤ w := by
  induction cs with
  | nil => intro cur h; simpa [greedyTake, sumLen] using h
  | cons c cs ih =>
    intro cur h
    by_cases hc : cur + c.length ≤ w
    · have := ih (cur + c.length) hc
      simp only [greedyTake, if_pos hc, sumLen_cons]
      omega
    · simp [greedyTake, if_neg hc, sumLen, h]

theorem rfindHyphenAux_lt (l : List Char) :
    ∀ i best h, (∀ b, best = some b → b < i) →
      rfindHyphenAux l i best = some h → h < i + l.length := by
  induction l with
  | nil =>
    intro i best h hb he
    have := hb h (by simpa [rfindHyphenAux] using he)
    omega
  | cons c cs ih =>
    intro i best h hb he
    simp only [rfindHyphenAux] at he
    have step : ∀ b, (if c = '-' then some i else best) = some b → b < i + 1 := by
      intro b hbb
      by_cases hc : c = '-'
      · simp [hc] at hbb; omega
      · have := hb b (by simpa [hc] using hbb)
        omega
    have := ih (i + 1) _ h step he
    simp only [List.length_cons]
    omega

theorem rfindHyphen_lt (cs : List Char) (bound : Nat) (h : Nat)
    (he : rfindHyphen cs bound = some h) : h < bound := by
  have hlt : h < 0 + (cs.take bound).length :=
    rfindHyphenAux_lt _ 0 none h (by intro b hb; simp at hb) he
  have : (cs.take bound).length ≤ bound := List.length_take_le bound cs
  omega

theorem hyphenEnd_le (c : String) (spaceLeft : Nat) :
    hyphenEnd c spaceLeft ≤ spaceLeft := by
  unfold hyphenEnd
  split
  · rcases hh : rfindHyphen c.data spaceLeft with _ | h
    · exact le_refl _
    · have := rfindHyphen_lt c.data spaceLeft h hh
      simp only
      split
      · omega
      · exact le_refl _
  · exact le_refl _

theorem strTake_length_le (c : String) (e : Nat) : (strTake c e).length ≤ e := by
  simp only [strTake, length_mk]
  exact List.length_take_le e c.data

theorem handleLong_bound (w : Nat) (taken : List String) (c : String)
    (hw : 1 ≤ w) (ht : sumLen taken ≤ w) :
    sumLen (handleLong w taken c).1 ≤ w := by
  unfold handleLong
  have hnot : ¬ w < 1 := by omega
  simp only [hnot, if_false, sumLen_append, sumLen_cons, sumLen_nil]
  have h1 : hyphenEnd c (w - sumLen taken) ≤ w - sumLen taken := hyphenEnd_le _ _
  have h2 := strTake_length_le c (hyphenEnd c (w - sumLen taken))
  omega

theorem sumLen_dropLast (ls : List String) : sumLen ls.dropLast ≤ sumLen ls := by
  induction ls with
  | nil => simp
  | cons x xs ih =>
    cases xs with
    | nil => simp [sumLen]
    | cons y ys =>
      simp only [List.dropLast_cons₂, sumLen_cons]
      have := ih
      simp only [sumLen_cons] at this ⊢
      omega

theorem dropTrailingWsChunk_sumLen_le (ls : List String) :
    sumLen (dropTrailingWsChunk ls) ≤ sumLen ls := by
  unfold dropTrailingWsChunk
  split
  · split
    · exact sumLen_dropLast ls
    · exact le_refl _
  · exact le_refl _

theorem fillLine_bound (w : Nat) (hw : 1 ≤ w) (chunks : List String) :
    sumLen (fillLine w chunks).1 ≤ w := by
  have hg : sumLen (greedyTake w 0 chunks).1 ≤ w := by
    have := greedyTake_bound w chunks 0 (Nat.zero_le w)
    omega
  unfold fillLine
  rcases hp : greedyTake w 0 chunks with ⟨taken, rest⟩
  rw [hp] at hg
  cases rest with
  | nil => exact hg
  | cons c cs =>
    by_cases hlen : w < c.length
    · simpa [hlen] using handleLong_bound w taken c hw hg
    · simpa [hlen] using hg

theorem wrapStep_fst_le (w : Nat) (hw : 1 ≤ w) (isFirst : Bool)
    (chunks : List String) (line : String)
    (h : (wrapStep w isFirst chunks).1 = some line) : line.length ≤ w := by
  unfold wrapStep at h
  simp only at h
  split at h
  · exact absurd h (by simp)
  · have hline : line = strJoin (dropTrailingWsChunk (fillLine w (dropLeadingWs isFirst chunks)).1) :=
      (Option.some.inj h).symm
    rw [hline, strJoin_length]
    exact le_trans (dropTrailingWsChunk_sumLen_le _) (fillLine_bound w hw _)

theorem wrapGo_line_le (w : Nat) (hw : 1 ≤ w) :
    ∀ fuel isFirst chunks l, l ∈ wrapGo w fuel isFirst chunks → l.length ≤ w := by
  intro fuel
  induction fuel with
  | zero => intro _ _ l h; simp [wrapGo] at h
  | succ n ih =>
    intro isFirst chunks l h
    cases chunks with
    | nil => simp [wrapGo] at h
    | cons c cs =>
      simp only [wrapGo] at h
      cases hstep : (wrapStep w isFirst (c :: cs)).1 with
      | some line =>
        rw [hstep] at h
        rcases List.mem_cons.mp h with h1 | h2
        · subst h1; exact wrapStep_fst_le w hw _ _ _ hstep
        · exact ih _ _ l h2
      | none =>
        rw [hstep] at h
        exact ih _ _ l h

/-- Every line produced by the wrap model fits in the width. -/
theorem textwrapWrap_line_le (s : String) (w : Nat) (hw : 1 ≤ w) :
    ∀ l ∈ textwrapWrap s w, l.length ≤ w := by
  intro l h
  exact wrapGo_line_le w hw _ _ _ l h

/-! ### Strip / split toolkit lemmas -/

theorem stripLeftC_cons_in {set : List Char} {c : Char} (l : List Char)
    (h : inChars set c = true) : stripLeftC set (c :: l) = stripLeftC set l := by
  simp [stripLeftC, List.dropWhile_cons, h]

theorem stripLeftC_cons_notin {set : List Char} {c : Char} (l : List Char)
    (h : inChars set c = false) : stripLeftC set (c :: l) = c :: l := by
  simp [stripLeftC, List.dropWhile_cons, h]

theorem stripLeftC_nil (set : List Char) : stripLeftC set [] = [] := rfl

theorem stripRightC_nil (set : List Char) : stripRightC set [] = [] := rfl

theorem stripRightC_append_in {set : List Char} {c : Char} (l : List Char)
    (h : inChars set c = true) : stripRightC set (l ++ [c]) = stripRightC set l := by
  simp [stripRightC, List.reverse_append, List.dropWhile_cons, h]

theorem stripRightC_append_notin {set : List Char} {c : Char} (l : List Char)
    (h : inChars set c = false) : stripRightC set (l ++ [c]) = l ++ [c] := by
  simp [stripRightC, List.reverse_append, List.dropWhile_cons, h]

theorem stripLeftC_length_le (set : List Char) (l : List Char) :
    (stripLeftC set l).length ≤ l.length :=
  List.Sublist.length_le (List.dropWhile_sublist _)

theorem stripRightC_length_le (set : List Char) (l : List Char) :
    (stripRightC set l).length ≤ l.length := by
  unfold stripRightC
  rw [List.length_reverse]
  calc (l.reverse.dropWhile (inChars set)).length
      ≤ l.reverse.length := List.Sublist.length_le (List.dropWhile_sublist _)
    _ = l.length := List.length_reverse _

theorem stripLeftC_of_length_eq {set : List Char} {l : List Char}
    (h : (stripLeftC set l).length = l.length) : stripLeftC set l = l := by
  induction l with
  | nil => rfl
  | cons c cs ih =>
    by_cases hc : inChars set c = true
    · rw [stripLeftC_cons_in cs hc] at h ⊢
      have := stripLeftC_length_le set cs
      simp only [List.length_cons] at h
      omega
    · exact stripLeftC_cons_notin cs (by simpa using hc)

theorem stripRightC_of_length_eq {set : List Char} {l : List Char}
    (h : (stripRightC set l).length = l.length) : stripRightC set l = l := by
  have h2 : (l.reverse.dropWhile (inChars set)).length = l.reverse.length := by
    simpa [stripRightC] using h
  have h3 : stripLeftC set l.reverse = l.reverse := stripLeftC_of_length_eq h2
  simp only [stripRightC]
  rw [show l.reverse.dropWhile (inChars set) = stripLeftC set l.reverse from rfl, h3,
    List.reverse_reverse]

/-- A list fixed by the full strip is fixed by each one-sided strip. -/
theorem stripC_self_decomp {set : List Char} {l : List Char}
    (h : stripC set l = l) : stripLeftC set l = l ∧ stripRightC set l = l := by
  have hlen : l.length ≤ (stripLeftC set l).length := by
    calc l.length = (stripC set l).length := by rw [h]
      _ ≤ (stripLeftC set l).length := stripRightC_length_le _ _
  have hL : stripLeftC set l = l :=
    stripLeftC_of_length_eq (Nat.le_antisymm (stripLeftC_length_le _ _) hlen)
  refine ⟨hL, ?_⟩
  have : stripRightC set l = l := by
    have := h
    unfold stripC at this
    rwa [hL] at this
  exact this

theorem stripLeftC_append_of_self {set : List Char} {l : List Char} (m : List Char)
    (h : stripLeftC set l = l) (hne : l ≠ []) :
    stripLeftC set (l ++ m) = l ++ m := by
  cases l with
  | nil => exact absurd rfl hne
  | cons c cs =>
    have hc : inChars set c = false := by
      by_contra hc
      have hc' : inChars set c = true := by simpa using hc
      rw [stripLeftC_cons_in cs hc'] at h
      have := stripLeftC_length_le set cs
      have := congrArg List.length h
      simp only [List.length_cons] at this
      omega
    rw [List.cons_append, stripLeftC_cons_notin _ hc]

theorem stripRightC_self_append {set : List Char} {l : List Char} (m : List Char)
    (h : stripRightC set l = l) (hne : l ≠ []) :
    stripRightC set (m ++ l) = m ++ l := by
  rcases List.eq_nil_or_concat l with rfl | ⟨l2, c, rfl⟩
  · exact absurd rfl hne
  · simp only [List.concat_eq_append] at h hne ⊢
    have hc : inChars set c = false := by
      by_contra hc
      have hc' : inChars set c = true := by simpa using hc
      rw [stripRightC_append_in l2 hc'] at h
      have := stripRightC_length_le set l2
      have := congrArg List.length h
      simp only [List.length_append, List.length_cons] at this
      omega
    rw [← List.append_assoc, stripRightC_append_notin _ hc]

/-- Wrapping a stripped payload in one layer of whitespace strips back
to the payload. -/
theorem stripC_ws_wrap (P : List Char) (h : stripC wsChars P = P) :
    stripC wsChars ('\n' :: (P ++ ['\n'])) = P := by
  rcases stripC_self_decomp h with ⟨hL, hR⟩
  unfold stripC
  rw [stripLeftC_cons_in _ (by decide)]
  cases hP : P with
  | nil =>
    simp only [List.nil_append]
    rw [show stripLeftC wsChars ['\n'] = [] from rfl]
    rfl
  | cons c cs =>
    rw [← hP]
    have hPne : P ≠ [] := by rw [hP]; simp
    rw [stripLeftC_append_of_self _ hL hPne,
      stripRightC_append_in _ (by decide), hR]

/-- Lemma: `strSlice` cuts out exactly the middle of a three-part
concatenation. -/
theorem strSlice_exact (a mid b : List Char) :
    strSlice (String.mk (a ++ mid ++ b)) a.length (a.length + mid.length)
      = String.mk mid := by
  unfold strSlice
  have h1 : (a ++ mid ++ b).drop a.length = mid ++ b := by
    rw [List.append_assoc]
    exact List.drop_left a (mid ++ b)
  have h2 : a.length + mid.length - a.length = mid.length := by omega
  rw [data_mk, h1, h2, List.take_left]

/-! ## Claim C2: the word wrap -/

/-- C2 (counterexample): a single token longer than the width is NOT
placed alone as the whole line — `textwrap.wrap` force-splits it
(`break_long_words=True` by default): the ten-character token at width
4 yields `["aaaa", "aaaa", "aa"]` and no line equals the token. -/
theorem c2_counterexample :
    textwrapWrap "aaaaaaaaaa" 4 = ["aaaa", "aaaa", "aa"]
    ∧ ¬ ("aaaaaaaaaa" ∈ textwrapWrap "aaaaaaaaaa" 4) := by
  constructor
  · rfl
  · decide

/-- C2 (amended): for every width W > 0, every line the wrap produces
has length at most W — with no exception: a token longer than W is
broken into pieces that fit rather than placed alone on an over-long
line.  The bound holds for every chunk stream fed to the
`_wrap_chunks` loop, hence in particular for the full wrap of any
body text. -/
theorem c2_wrap_width_bound (W : Nat) (hW : 0 < W) :
    (∀ fuel isFirst chunks l, l ∈ wrapGo W fuel isFirst chunks → l.length ≤ W)
    ∧ (∀ T l, l ∈ textwrapWrap T W → l.length ≤ W) := by
  refine ⟨fun fuel isFirst chunks l h => ?_, fun T l h => ?_⟩
  · exact wrapGo_line_le W hW fuel isFirst chunks l h
  · exact textwrapWrap_line_le T W hW l h

/-- C2 witness: the bound applied at W = 4 to a concrete wrapped line. -/
theorem c2_wrap_width_bound_witness : ("aaaa" : String).length ≤ 4 :=
  (c2_wrap_width_bound 4 (by decide)).2 "aaaaaaaaaa" "aaaa" (by decide)

/-! ## Claim C9: lifetime of the temporary PDF file -/

/-- C9: when `create_professional_pdf` raises after the temporary file
has been created, `os.unlink` never runs — the block has no
`try`/`finally` — so the file is leaked, contradicting the claimed
deletion on all exit paths.  The same happens when delivery raises. -/
theorem c9_leak_on_render_error :
    ((pdfStep false true).tmpCreated = true ∧ (pdfStep false true).unlinkCalled = false)
    ∧ ((pdfStep true false).tmpCreated = true ∧ (pdfStep true false).unlinkCalled = false)
    ∧ (pdfStep true true).unlinkCalled = true := by
  decide

/-! ## Claim C6: error reporting of structured parsing -/

/-- C6 (counterexample): a payload that is valid JSON but not of the
Document shape is returned as a SUCCESS — `get_customized_resume_json`
performs no schema validation after `json.loads` — so "wrong types" do
not yield the claimed error result. -/
theorem c6_counterexample :
    parseStructured "[1, 2, 3]"
      = ParseOutcome.ok (JValue.jarr [JValue.jnum "1", JValue.jnum "2", JValue.jnum "3"]) "[1, 2, 3]"
    ∧ documentShaped (JValue.jarr [JValue.jnum "1", JValue.jnum "2", JValue.jnum "3"]) = false := by
  constructor
  · rfl
  · rfl

/-- C6 (amended): the error result is produced exactly when the
fence-stripped payload fails to DECODE as JSON (malformed syntax), and
it then carries the original raw text unchanged; a successful decode —
whatever its type — is returned as success together with the raw text,
never a substituted default. -/
theorem c6_parse_error_carries_raw (raw : String) :
    (parseStructured raw = ParseOutcome.jsonError raw ↔ jsonParse (stripFence raw) = none)
    ∧ (∀ v r, parseStructured raw = ParseOutcome.ok v r →
        jsonParse (stripFence raw) = some v ∧ r = raw) := by
  constructor
  · constructor
    · intro h
      unfold parseStructured at h
      cases hj : jsonParse (stripFence raw) with
      | some v => rw [hj] at h; exact absurd h (by simp)
      | none => rfl
    · intro h
      unfold parseStructured
      rw [h]
  · intro v r h
    unfold parseStructured at h
    cases hj : jsonParse (stripFence raw) with
    | some v2 =>
      rw [hj] at h
      simp only [ParseOutcome.ok.injEq] at h
      exact ⟨by rw [h.1], h.2.symm⟩
    | none => rw [hj] at h; exact absurd h (by simp)

/-- C6 witness: the amended statement at concrete malformed input. -/
theorem c6_parse_error_carries_raw_witness :
    parseStructured "not json at all" = ParseOutcome.jsonError "not json at all" :=
  (c6_parse_error_carries_raw "not json at all").1.mpr rfl

/-! ## Claim C3: fenced-block stripping -/

theorem isPrefixOf_eq (l1 l2 : List Char) : l1.isPrefixOf l2 = true ↔ l1 <+: l2 :=
  List.isPrefixOf_iff_prefix

theorem strStartsWith_append (pre rest : String) :
    strStartsWith (pre ++ rest) pre = true := by
  unfold strStartsWith
  rw [data_append]
  exact (isPrefixOf_eq _ _).mpr ⟨_, rfl⟩

theorem strEndsWith_append (s suf : String) :
    strEndsWith (s ++ suf) suf = true := by
  unfold strEndsWith
  rw [data_append]
  unfold List.isSuffixOf
  rw [List.reverse_append]
  exact (isPrefixOf_eq _ _).mpr ⟨_, rfl⟩

/-- A string both of whose end characters lie outside the strip set is
fixed by the strip. -/
theorem stripC_guarded (set : List Char) (x y : Char) (l : List Char)
    (hx : inChars set x = false) (hy : inChars set y = false) :
    stripC set (x :: (l ++ [y])) = x :: (l ++ [y]) := by
  unfold stripC
  rw [stripLeftC_cons_notin _ hx,
    show x :: (l ++ [y]) = (x :: l) ++ [y] from rfl,
    stripRightC_append_notin _ hy]

theorem pyStrip_fix_of_data {s : String} (h : stripC wsChars s.data = s.data) :
    pyStrip s = s := by
  unfold pyStrip
  rw [h, mk_data]

theorem pyStrip_data_of_fix {s : String} (h : pyStrip s = s) :
    stripC wsChars s.data = s.data := by
  have := congrArg String.data h
  simpa [pyStrip] using this

/-- C3 (counterexample): a fenced payload with a language tag other
than `json` is NOT stripped down to the payload — only the three
backticks are removed, the tag text remains, and decoding fails —
whereas the unfenced payload decodes fine.  (The tag `json` is the only
one handled.) -/
theorem c3_counterexample :
    decodedOf "```python\n[1, 2]\n```" = none
    ∧ decodedOf "[1, 2]" = some (JValue.jarr [JValue.jnum "1", JValue.jnum "2"])
    ∧ stripFence "```python\n[1, 2]\n```" = "python\n[1, 2]" := by
  refine ⟨rfl, rfl, rfl⟩

/-- C3 (amended): for a whitespace-stripped payload `P` that does not
itself start with a fence marker, wrapping `P` in a fenced block with
the `json` tag — or with no tag — strips back to exactly `P`, so the
fenced input decodes to exactly the same value as the unfenced
payload. -/
theorem c3_fence_stripped_roundtrip (P : String) (h1 : pyStrip P = P)
    (h2 : strStartsWith P "```" = false) :
    stripFence ("```json\n" ++ P ++ "\n```") = P
    ∧ stripFence ("```\n" ++ P ++ "\n```") = P
    ∧ decodedOf ("```json\n" ++ P ++ "\n```") = decodedOf P
    ∧ decodedOf ("```\n" ++ P ++ "\n```") = decodedOf P := by
  have hPd : stripC wsChars P.data = P.data := pyStrip_data_of_fix h1
  -- `stripFence P = P`: neither fence branch fires
  have hj3 : strStartsWith P "```json" = false := by
    by_contra hj
    have hj' : strStartsWith P "```json" = true := by simpa using hj
    have hpre : "```".data <+: "```json".data := ⟨"json".data, rfl⟩
    have : strStartsWith P "```" = true := by
      unfold strStartsWith at hj' ⊢
      exact (isPrefixOf_eq _ _).mpr
        (hpre.trans ((isPrefixOf_eq _ _).mp hj'))
    rw [this] at h2
    exact absurd h2 (by simp)
  have hPfix : stripFence P = P := by
    simp only [stripFence]
    rw [h1, hj3, h2]
    simp
  -- the json-tagged fenced form
  have hdataA : ("```json\n" ++ P ++ "\n```").data
      = "```json".data ++ ('\n' :: (P.data ++ ['\n'])) ++ "```".data := by
    rw [data_append, data_append]
    simp only [List.append_assoc, List.cons_append, List.nil_append]
  have hA : stripFence ("```json\n" ++ P ++ "\n```") = P := by
    have hguard : stripC wsChars ("```json\n" ++ P ++ "\n```").data
        = ("```json\n" ++ P ++ "\n```").data := by
      rw [hdataA]
      have hsh : "```json".data ++ ('\n' :: (P.data ++ ['\n'])) ++ "```".data
          = '`' :: (("``json".data ++ ('\n' :: (P.data ++ ['\n'])) ++ "``".data) ++ ['`']) := by
        simp only [List.append_assoc, List.cons_append, List.nil_append]
      rw [hsh]
      rw [show ∀ m : List Char, stripC wsChars ('`' :: (m ++ ['`'])) = '`' :: (m ++ ['`'])
        from fun m => stripC_guarded wsChars '`' '`' m (by decide) (by decide)]
    have hstr : pyStrip ("```json\n" ++ P ++ "\n```") = "```json\n" ++ P ++ "\n```" :=
      pyStrip_fix_of_data hguard
    have hre1 : ("```json\n" ++ P ++ "\n```") = "```json" ++ ("\n" ++ P ++ "\n```") := by
      apply str_ext
      simp only [data_append, List.append_assoc, List.cons_append, List.nil_append]
    have hc1 : strStartsWith ("```json\n" ++ P ++ "\n```") "```json" = true := by
      rw [hre1]; exact strStartsWith_append _ _
    have hre2 : ("```json\n" ++ P ++ "\n```") = ("```json\n" ++ P ++ "\n") ++ "```" := by
      apply str_ext
      simp only [data_append, List.append_assoc, List.cons_append, List.nil_append]
    have hc2 : strEndsWith ("```json\n" ++ P ++ "\n```") "```" = true := by
      rw [hre2]; exact strEndsWith_append _ _
    have hlen : ("```json\n" ++ P ++ "\n```").length - 3
        = "```json".data.length + ('\n' :: (P.data ++ ['\n'])).length := by
      have : ("```json\n" ++ P ++ "\n```").length
          = ("```json".data ++ ('\n' :: (P.data ++ ['\n'])) ++ "```".data).length := by
        rw [show ∀ s : String, s.length = s.data.length from fun _ => rfl, hdataA]
      rw [this]
      simp only [List.length_append, List.length_cons]
      simp
    have hmk : ("```json\n" ++ P ++ "\n```")
        = String.mk ("```json".data ++ ('\n' :: (P.data ++ ['\n'])) ++ "```".data) := by
      rw [← hdataA, mk_data]
    simp only [stripFence]
    rw [hstr, hc1, hc2]
    simp only [Bool.true_and]
    rw [if_pos trivial]
    rw [hlen, show (7 : Nat) = "```json".data.length from rfl, hmk, strSlice_exact]
    unfold pyStrip
    rw [data_mk, stripC_ws_wrap P.data hPd, mk_data]
  -- the untagged fenced form
  have hdataB : ("```\n" ++ P ++ "\n```").data
      = "```".data ++ ('\n' :: (P.data ++ ['\n'])) ++ "```".data := by
    rw [data_append, data_append]
    simp only [List.append_assoc, List.cons_append, List.nil_append]
  have hB : stripFence ("```\n" ++ P ++ "\n```") = P := by
    have hguard : stripC wsChars ("```\n" ++ P ++ "\n```").data
        = ("```\n" ++ P ++ "\n```").data := by
      rw [hdataB]
      have hsh : "```".data ++ ('\n' :: (P.data ++ ['\n'])) ++ "```".data
          = '`' :: (("``".data ++ ('\n' :: (P.data ++ ['\n'])) ++ "``".data) ++ ['`']) := by
        simp only [List.append_assoc, List.cons_append, List.nil_append]
      rw [hsh]
      rw [show ∀ m : List Char, stripC wsChars ('`' :: (m ++ ['`'])) = '`' :: (m ++ ['`'])
        from fun m => stripC_guarded wsChars '`' '`' m (by decide) (by decide)]
    have hstr : pyStrip ("```\n" ++ P ++ "\n```") = "```\n" ++ P ++ "\n```" :=
      pyStrip_fix_of_data hguard
    have hcjson : strStartsWith ("```\n" ++ P ++ "\n```") "```json" = false := by
      unfold strStartsWith
      rw [hdataB]
      rfl
    have hre1 : ("```\n" ++ P ++ "\n```") = "```" ++ ("\n" ++ P ++ "\n```") := by
      apply str_ext
      simp only [data_append, List.append_assoc, List.cons_append, List.nil_append]
    have hc1 : strStartsWith ("```\n" ++ P ++ "\n```") "```" = true := by
      rw [hre1]; exact strStartsWith_append _ _
    have hre2 : ("```\n" ++ P ++ "\n```") = ("```\n" ++ P ++ "\n") ++ "```" := by
      apply str_ext
      simp only [data_append, List.append_assoc, List.cons_append, List.nil_append]
    have hc2 : strEndsWith ("```\n" ++ P ++ "\n```") "```" = true := by
      rw [hre2]; exact strEndsWith_append _ _
    have hlen : ("```\n" ++ P ++ "\n```").length - 3
        = "```".data.length + ('\n' :: (P.data ++ ['\n'])).length := by
      have : ("```\n" ++ P ++ "\n```").length
          = ("```".data ++ ('\n' :: (P.data ++ ['\n'])) ++ "```".data).length := by
        rw [show ∀ s : String, s.length = s.data.length from fun _ => rfl, hdataB]
      rw [this]
      simp only [List.length_append, List.length_cons]
      simp
    have hmk : ("```\n" ++ P ++ "\n```")
        = String.mk ("```".data ++ ('\n' :: (P.data ++ ['\n'])) ++ "```".data) := by
      rw [← hdataB, mk_data]
    simp only [stripFence]
    rw [hstr, hcjson, hc1, hc2]
    simp only [Bool.false_and, Bool.true_and]
    rw [if_neg (by simp), if_pos trivial]
    rw [hlen, show (3 : Nat) = "```".data.length from rfl, hmk, strSlice_exact]
    unfold pyStrip
    rw [data_mk, stripC_ws_wrap P.data hPd, mk_data]
  refine ⟨hA, hB, ?_, ?_⟩
  · unfold decodedOf
    rw [hA, hPfix]
  · unfold decodedOf
    rw [hB, hPfix]

/-- C3 witness: a concrete payload, fenced with the json tag and with
no tag, decodes identically to the unfenced payload. -/
theorem c3_fence_stripped_roundtrip_witness :
    stripFence ("```json\n" ++ "[1, 2]" ++ "\n```") = "[1, 2]"
    ∧ decodedOf ("```json\n" ++ "[1, 2]" ++ "\n```") = decodedOf "[1, 2]" := by
  have h := c3_fence_stripped_roundtrip "[1, 2]" rfl rfl
  exact ⟨h.1, h.2.2.1⟩

/-! ## Claims C4, C7, C10: the JSON-driven layout -/

theorem strIntercalate_single (sep a : String) : strIntercalate sep [a] = a := by
  unfold strIntercalate
  simp only [List.map_cons, List.map_nil, icalate]

theorem strIntercalate_triple (sep a b c : String) :
    strIntercalate sep [a, b, c] = a ++ sep ++ b ++ sep ++ c := by
  apply str_ext
  simp [strIntercalate, icalate, data_append, List.append_assoc]

theorem strIntercalate_quad (sep a b c d : String) :
    strIntercalate sep [a, b, c, d] = a ++ sep ++ b ++ sep ++ c ++ sep ++ d := by
  apply str_ext
  simp [strIntercalate, icalate, data_append, List.append_assoc]

theorem optPart_of_not_truthy (o : Option String) (h : truthyO o = false) :
    optPart o = [] := by
  cases o with
  | none => rfl
  | some s =>
    simp only [truthyO, Bool.not_eq_false'] at h
    simp [optPart, of_decide_eq_true h]

theorem optPart_of_truthy (o : Option String) (h : truthyO o = true) :
    optPart o = [o.getD ""] := by
  cases o with
  | none => simp [truthyO] at h
  | some s =>
    simp only [truthyO, Bool.not_eq_true'] at h
    simp only [optPart, Option.getD_some]
    rw [if_neg (by simpa using h)]

theorem optPartWith_of_not_truthy (pre : String) (o : Option String)
    (h : truthyO o = false) : optPartWith pre o = [] := by
  simp [optPartWith, optPart_of_not_truthy o h]

theorem optPartWith_of_truthy (pre : String) (o : Option String)
    (h : truthyO o = true) : optPartWith pre o = [pre ++ o.getD ""] := by
  simp [optPartWith, optPart_of_truthy o h]

theorem onlineLinks_empty_iff (c : ContactInfo) :
    (onlineLinks c).isEmpty
      = !(truthyO c.linkedin || truthyO c.github || truthyO c.portfolio ||
          truthyO c.additional) := by
  unfold onlineLinks
  cases hl : truthyO c.linkedin
  case' false => rw [optPartWith_of_not_truthy _ _ hl]
  case' true => rw [optPartWith_of_truthy _ _ hl]
  all_goals cases hg : truthyO c.github
  case' false.false | true.false => rw [optPartWith_of_not_truthy _ _ hg]
  case' false.true | true.true => rw [optPartWith_of_truthy _ _ hg]
  all_goals cases hp : truthyO c.portfolio
  all_goals first
    | rw [optPartWith_of_not_truthy _ _ hp]
    | rw [optPartWith_of_truthy _ _ hp]
  all_goals cases ha : truthyO c.additional
  all_goals first
    | rw [optPart_of_not_truthy _ ha]
    | rw [optPart_of_truthy _ ha]
  all_goals simp

/-- C4: the contact section of the JSON-driven layout.  First line:
present fields only, fixed order `location | phone | email`; with only
the email present the line is the bare email string.  Second line:
labelled linkedin/github/portfolio plus bare additional, emitted
exactly when at least one of the four is truthy. -/
theorem c4_contact_section (c : ContactInfo) :
    (truthyO c.location = false → truthyO c.phone = false → truthyO c.email = true →
      contactLine1 c = c.email.getD "")
    ∧ (truthyO c.location = true → truthyO c.phone = true → truthyO c.email = true →
      contactLine1 c
        = c.location.getD "" ++ " | " ++ c.phone.getD "" ++ " | " ++ c.email.getD "")
    ∧ (contactSection c
        = [Instr.banner "Contact Information", Instr.txt (contactLine1 c)]
          ++ (if (onlineLinks c).isEmpty then []
              else [Instr.txt (strIntercalate " | " (onlineLinks c))]))
    ∧ ((onlineLinks c).isEmpty = false ↔
        (truthyO c.linkedin || truthyO c.github || truthyO c.portfolio ||
          truthyO c.additional) = true)
    ∧ (truthyO c.linkedin = true → truthyO c.github = true →
        truthyO c.portfolio = true → truthyO c.additional = true →
      strIntercalate " | " (onlineLinks c)
        = "LinkedIn: " ++ c.linkedin.getD "" ++ " | " ++ "GitHub: " ++ c.github.getD ""
            ++ " | " ++ "Portfolio: " ++ c.portfolio.getD "" ++ " | " ++ c.additional.getD "") := by
  refine ⟨?_, ?_, ?_, ?_, ?_⟩
  · intro h1 h2 h3
    unfold contactLine1 parts3
    rw [optPart_of_not_truthy _ h1, optPart_of_not_truthy _ h2, optPart_of_truthy _ h3]
    simp [strIntercalate_single]
  · intro h1 h2 h3
    unfold contactLine1 parts3
    rw [optPart_of_truthy _ h1, optPart_of_truthy _ h2, optPart_of_truthy _ h3]
    simp only [List.cons_append, List.nil_append]
    exact strIntercalate_triple " | " _ _ _
  · rfl
  · rw [onlineLinks_empty_iff]
    cases truthyO c.linkedin <;> cases truthyO c.github <;>
      cases truthyO c.portfolio <;> cases truthyO c.additional <;> simp
  · intro h1 h2 h3 h4
    unfold onlineLinks
    rw [optPartWith_of_truthy _ _ h1, optPartWith_of_truthy _ _ h2,
      optPartWith_of_truthy _ _ h3, optPart_of_truthy _ h4]
    simp only [List.cons_append, List.nil_append]
    rw [strIntercalate_quad]
    apply str_ext
    simp [data_append, List.append_assoc]

/-- C4 witness: with only the email present, the contact line is the
bare email string. -/
theorem c4_contact_section_witness :
    contactLine1 ⟨none, none, some "a@b.c", none, none, none, none⟩ = "a@b.c" :=
  (c4_contact_section ⟨none, none, some "a@b.c", none, none, none, none⟩).1
    rfl rfl (by decide)

@[simp] theorem bannersOf_nil : bannersOf [] = [] := rfl

@[simp] theorem bannersOf_cons_banner (s : String) (l : List Instr) :
    bannersOf (Instr.banner s :: l) = s :: bannersOf l := rfl

@[simp] theorem bannersOf_cons_txt (s : String) (l : List Instr) :
    bannersOf (Instr.txt s :: l) = bannersOf l := rfl

@[simp] theorem bannersOf_cons_nameC (s : String) (l : List Instr) :
    bannersOf (Instr.nameC s :: l) = bannersOf l := rfl

@[simp] theorem bannersOf_cons_glyph (l : List Instr) :
    bannersOf (Instr.glyph :: l) = bannersOf l := rfl

@[simp] theorem bannersOf_cons_indent (n : Nat) (l : List Instr) :
    bannersOf (Instr.indent n :: l) = bannersOf l := rfl

@[simp] theorem bannersOf_append (a b : List Instr) :
    bannersOf (a ++ b) = bannersOf a ++ bannersOf b := by
  simp [bannersOf]

theorem bannersOf_txt_map (ls : List String) :
    bannersOf (ls.map Instr.txt) = [] := by
  induction ls with
  | nil => rfl
  | cons x xs ih => simpa using ih

@[simp] theorem bannersOf_achInstrs (a : String) : bannersOf (achInstrs a) = [] := by
  unfold achInstrs
  cases textwrapWrap a 85 with
  | nil => rfl
  | cons l ls =>
    simp only [List.cons_append, List.nil_append, bannersOf_cons_indent,
      bannersOf_cons_glyph, bannersOf_cons_txt]
    induction ls with
    | nil => rfl
    | cons y ys ih => simpa using ih

theorem bannersOf_flatMap_nil {α : Type} (f : α → List Instr) (ls : List α)
    (h : ∀ x, bannersOf (f x) = []) : bannersOf (ls.flatMap f) = [] := by
  induction ls with
  | nil => rfl
  | cons x xs ih => rw [List.flatMap_cons, bannersOf_append, h, ih]; rfl

@[simp] theorem bannersOf_ach_flatMap (ls : List String) :
    bannersOf (ls.flatMap achInstrs) = [] :=
  bannersOf_flatMap_nil _ ls bannersOf_achInstrs

theorem bannersOf_jobInstrs (j : Job) : bannersOf (jobInstrs j) = [] := by
  unfold jobInstrs
  cases truthyO j.duration <;> simp

theorem bannersOf_eduInstrs (e : Edu) : bannersOf (eduInstrs e) = [] := by
  unfold eduInstrs
  cases truthyO e.duration <;> simp

theorem bannersOf_projInstrs (p : Project) : bannersOf (projInstrs p) = [] := by
  simp [projInstrs]

theorem bannersOf_contactSection (c : ContactInfo) :
    bannersOf (contactSection c) = ["Contact Information"] := by
  unfold contactSection
  cases (onlineLinks c).isEmpty <;> simp

theorem bannersOf_summarySection (o : Option String) :
    bannersOf (summarySection o) = ["Professional Summary"] := by
  unfold summarySection
  simp [bannersOf_txt_map]

theorem bannersOf_skillsSection (sk : List String) :
    bannersOf (skillsSection sk) = ["Skills"] := by
  unfold skillsSection
  simp [bannersOf_flatMap_nil (fun s => [Instr.glyph, Instr.txt s]) sk (fun x => rfl)]

theorem bannersOf_workSection (jobs : List Job) :
    bannersOf (workSection jobs) = ["Work Experience"] := by
  unfold workSection
  simp [bannersOf_flatMap_nil jobInstrs jobs bannersOf_jobInstrs]

theorem bannersOf_eduSection (es : List Edu) :
    bannersOf (eduSection es) = ["Education"] := by
  unfold eduSection
  simp [bannersOf_flatMap_nil eduInstrs es bannersOf_eduInstrs]

theorem bannersOf_projSection (o : Option (List Project)) :
    bannersOf (projSection o)
      = (if truthyProj o then ["Personal Projects"] else []) := by
  unfold projSection
  cases truthyProj o
  · rfl
  · simp [bannersOf_flatMap_nil projInstrs (o.getD []) bannersOf_projInstrs]

/-- C7: the JSON-driven layout emits its section banners in the fixed
order, the Personal Projects banner appearing exactly when
`resume_data.get('projects')` is truthy; a missing key (`none`) and an
empty list are both non-truthy, and an empty skills list still yields
the Skills banner, with an empty body. -/
theorem c7_section_banners (d : Document) :
    bannersOf (renderPdf d)
      = ["Contact Information", "Professional Summary", "Skills",
          "Work Experience", "Education"]
        ++ (if truthyProj d.projects then ["Personal Projects"] else [])
    ∧ truthyProj none = false
    ∧ truthyProj (some []) = false
    ∧ (d.skills = [] → skillsSection d.skills = [Instr.banner "Skills"]) := by
  refine ⟨?_, rfl, rfl, ?_⟩
  · unfold renderPdf
    rw [show ∀ (i : Instr) (l : List Instr), i :: l = [i] ++ l from fun i l => rfl]
    rw [bannersOf_append, bannersOf_append, bannersOf_append, bannersOf_append,
      bannersOf_append, bannersOf_append,
      bannersOf_contactSection, bannersOf_summarySection, bannersOf_skillsSection,
      bannersOf_workSection, bannersOf_eduSection, bannersOf_projSection]
    rfl
  · intro h
    rw [h]
    rfl

/-- C7 witness: a document with empty skills and no projects key still
shows the Skills banner and shows no Personal Projects banner. -/
theorem c7_section_banners_witness :
    bannersOf (renderPdf
        ⟨some "X", ⟨none, none, none, none, none, none, none⟩, none, [], [], [], none⟩)
      = ["Contact Information", "Professional Summary", "Skills",
          "Work Experience", "Education"]
    ∧ skillsSection ([] : List String) = [Instr.banner "Skills"] := by
  constructor
  · exact (c7_section_banners _).1
  · exact (c7_section_banners
      ⟨some "X", ⟨none, none, none, none, none, none, none⟩, none, [], [], [], none⟩).2.2.2 rfl

/-! ## Claims C5 and C8: the Work Experience / Education line
interpreter -/

theorem splitFirstAux_of_not_mem {c : Char} {l : List Char}
    (h : l.contains c = false) : splitFirstAux c l = none := by
  induction l with
  | nil => rfl
  | cons x xs ih =>
    simp only [List.contains_cons, Bool.or_eq_false_iff] at h
    have hx : ¬ x = c := by
      intro he
      rw [he] at h
      simp at h
    rw [splitFirstAux, if_neg hx, ih h.2]
    rfl

theorem splitFirst_of_no_char {c : Char} {s : String}
    (h : strHasChar c s = false) : splitFirst c s = none := by
  unfold splitFirst
  rw [splitFirstAux_of_not_mem (by simpa [strHasChar] using h)]
  rfl

/-- C5 (counterexample): a sub-bullet line arriving before any
entry-opening line is NOT discarded: the interpreter renders it as a
bullet (glyph plus text) — it contributes to the output, and no warning
exists anywhere in the code — before parsing continues with the entry
that follows. -/
theorem c5_counterexample :
    renderWorkEdu ["+ orphan", "* T, C"]
      = [RLine.bulletGlyph, RLine.bulletHead "orphan",
          RLine.eTitle "T", RLine.eCompany " C"]
    ∧ renderWorkEdu ["+ orphan", "* T, C"] ≠ renderWorkEdu ["* T, C"] := by
  constructor
  · rfl
  · decide

/-- C5 (amended): a sub-bullet line with no open entry is rendered
exactly like any other sub-bullet — stripped of its marker, wrapped and
emitted as a bullet — and the interpretation of all following lines is
unaffected. -/
theorem c5_orphan_bullet_rendered (t : String) (rest : List String) :
    renderWorkEdu (("+" ++ t) :: rest)
      = renderBulletLines (pyStrip t) ++ renderWorkEdu rest := by
  unfold renderWorkEdu
  simp only [List.flatMap_cons]
  have h1 : strStartsWith ("+" ++ t) "*" = false := rfl
  have h2 : strStartsWith ("+" ++ t) "+" = true := strStartsWith_append "+" t
  rw [h1, h2]
  simp only [Bool.false_eq_true, if_false, if_true]
  rw [show strDrop ("+" ++ t) 1 = t from rfl]

/-- C8: an entry-opening line is split at its FIRST comma into title
and company text; a line with no comma yields the whole stripped line
as the title, no company cell at all, and interpretation continues with
the following lines — no failure. -/
theorem c8_entry_comma_split (line : String) (rest : List String)
    (hstar : strStartsWith line "*" = true) :
    (strHasChar ',' (pyStripChars "* " line) = false →
      renderWorkEdu (line :: rest)
        = RLine.eTitle (pyStripChars "* " line) :: renderWorkEdu rest)
    ∧ (∀ a b, splitFirst ',' (pyStripChars "* " line) = some (a, b) →
      renderWorkEdu (line :: rest)
        = RLine.eTitle a :: RLine.eCompany b :: renderWorkEdu rest) := by
  constructor
  · intro hnc
    unfold renderWorkEdu
    simp only [List.flatMap_cons]
    rw [hstar]
    simp only [if_true]
    unfold renderEntryLine
    rw [splitFirst_of_no_char hnc]
    rfl
  · intro a b hsp
    unfold renderWorkEdu
    simp only [List.flatMap_cons]
    rw [hstar]
    simp only [if_true]
    unfold renderEntryLine
    rw [hsp]
    rfl

/-- C8 witness: `"* Engineer"` (no comma) gives title `"Engineer"`,
no company cell, and the next entry is interpreted normally. -/
theorem c8_entry_comma_split_witness :
    renderWorkEdu ["* Engineer", "* Dev, Acme"]
      = RLine.eTitle "Engineer" :: renderWorkEdu ["* Dev, Acme"] :=
  (c8_entry_comma_split "* Engineer" ["* Dev, Acme"] rfl).1 rfl

/-- Replace an empty-string field by an absent one. -/
def normO : Option String → Option String
  | some s => if s = "" then none else some s
  | none => none

/-- The map `normCI c` turns every `some ""` contact field of `c` into `none`. -/
def normCI (c : ContactInfo) : ContactInfo :=
  ⟨normO c.location, normO c.phone, normO c.email, normO c.linkedin,
    normO c.github, normO c.portfolio, normO c.additional⟩

@[simp] theorem optPart_normO (o : Option String) : optPart (normO o) = optPart o := by
  cases o with
  | none => rfl
  | some s =>
    by_cases h : s = ""
    · simp [normO, optPart, h]
    · simp [normO, optPart, h]

/-- C10: both output paths see a contact field holding `""` exactly as
an absent field — normalising every `some ""` contact field to `none`
changes neither the text serialization nor the PDF instruction
stream. -/
theorem c10_empty_contact_eq_absent (d : Document) :
    createTextResume { d with contact_info := normCI d.contact_info }
        = createTextResume d
    ∧ renderPdf { d with contact_info := normCI d.contact_info } = renderPdf d := by
  have h7 : contactParts7 (normCI d.contact_info) = contactParts7 d.contact_info := by
    unfold contactParts7 normCI
    simp
  have h3 : parts3 (normCI d.contact_info) = parts3 d.contact_info := by
    unfold parts3 normCI
    simp
  have hol : onlineLinks (normCI d.contact_info) = onlineLinks d.contact_info := by
    unfold onlineLinks normCI optPartWith
    simp
  constructor
  · unfold createTextResume textResumeLines
    rw [show ({ d with contact_info := normCI d.contact_info } : Document).contact_info
          = normCI d.contact_info from rfl, h7]
    rfl
  · unfold renderPdf contactSection contactLine1
    rw [show ({ d with contact_info := normCI d.contact_info } : Document).contact_info
          = normCI d.contact_info from rfl, h3, hol]
    rfl

/-! ## Claim C1: the serialize / parse round trip -/

theorem splitOnChar_of_not_mem {c : Char} {l : List Char}
    (h : l.contains c = false) : splitOnChar c l = [l] := by
  induction l with
  | nil => rfl
  | cons x xs ih =>
    simp only [List.contains_cons, Bool.or_eq_false_iff] at h
    have hx : ¬ x = c := by
      intro he; rw [he] at h; simp at h
    rw [splitOnChar, if_neg hx, ih h.2]

theorem splitOnChar_append {c : Char} {l : List Char} (m : List Char)
    (h : l.contains c = false) :
    splitOnChar c (l ++ c :: m) = l :: splitOnChar c m := by
  induction l with
  | nil => simp [splitOnChar]
  | cons x xs ih =>
    simp only [List.contains_cons, Bool.or_eq_false_iff] at h
    have hx : ¬ x = c := by
      intro he; rw [he] at h; simp at h
    rw [List.cons_append, splitOnChar, if_neg hx, ih h.2]

theorem splitOnChar_icalate {c : Char} (xs : List (List Char)) (hne : xs ≠ [])
    (h : ∀ x ∈ xs, x.contains c = false) :
    splitOnChar c (icalate [c] xs) = xs := by
  induction xs with
  | nil => exact absurd rfl hne
  | cons x xs ih =>
    cases xs with
    | nil =>
      simp only [icalate]
      exact splitOnChar_of_not_mem (h x (List.mem_cons_self x []))
    | cons y ys =>
      have hx := h x (List.mem_cons_self x _)
      have hrest : ∀ z ∈ y :: ys, z.contains c = false := by
        intro z hz
        exact h z (List.mem_cons_of_mem x hz)
      rw [icalate, show x ++ [c] ++ icalate [c] (y :: ys)
          = x ++ c :: icalate [c] (y :: ys) by simp,
        splitOnChar_append _ hx, ih (by simp) hrest]

/-- Splitting the joined lines on newlines gives the lines back, when
no line contains a newline. -/
theorem pySplitLines_joinLines (ls : List String) (hne : ls ≠ [])
    (h : ∀ l ∈ ls, noNl l = true) :
    pySplitLines (joinLines ls) = ls := by
  unfold pySplitLines joinLines
  rw [data_mk, splitOnChar_icalate (ls.map String.data)
    (by simpa using hne)
    (by
      intro x hx
      rcases List.mem_map.mp hx with ⟨l, hl, rfl⟩
      have := h l hl
      simpa [noNl, strHasChar] using this)]
  rw [List.map_map]
  have : (String.mk ∘ String.data) = id := by
    funext s
    exact mk_data s
  rw [this, List.map_id]

theorem matchHeader_empty : matchHeader "" = none := rfl

theorem matchHeader_star_space (t u : String) :
    matchHeader ("* " ++ t ++ ", " ++ u) = none := by
  have h : ("* " ++ t ++ ", " ++ u).data
      = '*' :: ' ' :: ((t.data ++ ", ".data) ++ u.data) := rfl
  unfold matchHeader
  rw [h]
  simp

theorem matchHeader_star_space_one (t : String) :
    matchHeader ("* " ++ t) = none := by
  have h : ("* " ++ t).data = '*' :: ' ' :: t.data := rfl
  unfold matchHeader
  rw [h]
  simp

theorem matchHeader_indent_plus (t : String) :
    matchHeader ("  + " ++ t) = none := by
  have h : ("  + " ++ t).data = ' ' :: ' ' :: ('+' :: ' ' :: t.data) := rfl
  unfold matchHeader
  rw [h]
  simp

theorem stripRightC_fix_of_last {set l}
    (h : ∀ c, l.getLast? = some c → inChars set c = false) :
    stripRightC set l = l := by
  rcases List.eq_nil_or_concat l with rfl | ⟨l2, c, rfl⟩
  · rfl
  · simp only [List.concat_eq_append] at h ⊢
    exact stripRightC_append_notin l2 (h c (by simp))

theorem inChars_of_starWs_false {c : Char} (h : inChars starWs c = false) :
    inChars wsChars c = false ∧ inChars starSp c = false := by
  simp only [inChars, starWs, starSp, wsChars, List.contains_cons,
    Bool.or_eq_false_iff] at h ⊢
  rcases h with ⟨h1, h2, h3, h4, h5, h6, h7⟩
  exact ⟨⟨h2, h3, h4, h5, h6, h7⟩, h1, h2, by simp⟩

theorem lastOk_stripRight_ws {s : String} (h : lastOk s = true) :
    stripRightC wsChars s.data = s.data := by
  apply stripRightC_fix_of_last
  intro c hc
  unfold lastOk at h
  rw [hc] at h
  exact (inChars_of_starWs_false (by simpa using h)).1

theorem lastOk_stripRight_starSp {s : String} (h : lastOk s = true) :
    stripRightC starSp s.data = s.data := by
  apply stripRightC_fix_of_last
  intro c hc
  unfold lastOk at h
  rw [hc] at h
  exact (inChars_of_starWs_false (by simpa using h)).2

theorem headOk_stripLeft_comma {t : String} (m : List Char)
    (h : headOk t = true) :
    stripLeftC starSp (t.data ++ ',' :: m) = t.data ++ ',' :: m := by
  cases ht : t.data with
  | nil =>
    simp only [List.nil_append]
    exact stripLeftC_cons_notin m (by decide)
  | cons c cs =>
    unfold headOk at h
    rw [ht] at h
    rw [List.cons_append]
    exact stripLeftC_cons_notin _ (by simpa using h)

theorem splitFirstAux_exact {c : Char} {l : List Char} (m : List Char)
    (h : l.contains c = false) :
    splitFirstAux c (l ++ c :: m) = some (l, m) := by
  induction l with
  | nil => simp [splitFirstAux]
  | cons x xs ih =>
    simp only [List.contains_cons, Bool.or_eq_false_iff] at h
    have hx : ¬ x = c := by
      intro he; rw [he] at h; simp at h
    rw [List.cons_append, splitFirstAux, if_neg hx, ih h.2]
    rfl

/-- Recovery of the name: stripping the serializer's emphasis asterisks
gives back a name that carries none of its own. -/
theorem name_star_wrap (n : String) (h : pyStripChar '*' n = n) :
    pyStripChar '*' ("**" ++ n ++ "**") = n := by
  have hfix : stripC ['*'] n.data = n.data := by
    have := congrArg String.data h
    simpa [pyStripChar] using this
  rcases stripC_self_decomp hfix with ⟨hL, hR⟩
  have hdata : ("**" ++ n ++ "**").data = '*' :: '*' :: (n.data ++ ['*', '*']) := rfl
  unfold pyStripChar stripC
  rw [hdata, stripLeftC_cons_in _ (by decide), stripLeftC_cons_in _ (by decide)]
  cases hn : n.data with
  | nil =>
    simp only [List.nil_append]
    rw [show stripLeftC ['*'] ['*', '*'] = [] from rfl, stripRightC_nil]
    exact str_ext (by rw [data_mk, hn])
  | cons c cs =>
    rw [← hn, stripLeftC_append_of_self _ hL (by rw [hn]; simp),
      show n.data ++ ['*', '*'] = (n.data ++ ['*']) ++ ['*'] by simp,
      stripRightC_append_in _ (by decide), stripRightC_append_in _ (by decide), hR,
      mk_data]

/-- An entry header line is already whitespace-stripped. -/
theorem entry_line_strip_fix (t u : String) (hu1 : lastOk u = true)
    (hu2 : u ≠ "") :
    pyStrip ("* " ++ t ++ ", " ++ u) = "* " ++ t ++ ", " ++ u := by
  apply pyStrip_fix_of_data
  have hdata : ("* " ++ t ++ ", " ++ u).data
      = ('*' :: ' ' :: (t.data ++ [',', ' '])) ++ u.data := rfl
  unfold stripC
  rw [hdata, show ('*' :: ' ' :: (t.data ++ [',', ' '])) ++ u.data
      = '*' :: ((' ' :: (t.data ++ [',', ' '])) ++ u.data) from rfl,
    stripLeftC_cons_notin _ (by decide),
    show '*' :: ((' ' :: (t.data ++ [',', ' '])) ++ u.data)
      = ('*' :: ' ' :: (t.data ++ [',', ' '])) ++ u.data from rfl,
    stripRightC_self_append _ (lastOk_stripRight_ws hu1)
      (by
        intro he
        exact hu2 (str_ext (by rw [he])))]

/-- Stripping the bullet marker and the surrounding spaces from an
entry header line leaves `title, remainder`. -/
theorem entry_line_marker_strip (t u : String) (ht : headOk t = true)
    (hu1 : lastOk u = true) (hu2 : u ≠ "") :
    pyStripChars "* " ("* " ++ t ++ ", " ++ u) = t ++ ", " ++ u := by
  have hdata : ("* " ++ t ++ ", " ++ u).data
      = '*' :: ' ' :: (t.data ++ ',' :: ' ' :: u.data) := by
    show '*' :: ' ' :: ((t.data ++ [',', ' ']) ++ u.data) = _
    simp
  unfold pyStripChars stripC
  rw [show ("* " : String).data = starSp from rfl, hdata,
    stripLeftC_cons_in _ (by decide), stripLeftC_cons_in _ (by decide),
    headOk_stripLeft_comma _ ht,
    show t.data ++ ',' :: ' ' :: u.data = (t.data ++ [',', ' ']) ++ u.data by simp,
    stripRightC_self_append _ (lastOk_stripRight_starSp hu1)
      (by
        intro he
        exact hu2 (str_ext (by rw [he])))]
  rfl

/-- The first comma of an entry header line is the serializer's. -/
theorem entry_line_split (t u : String) (ht : strHasChar ',' t = false) :
    splitFirst ',' (t ++ ", " ++ u) = some (t, " " ++ u) := by
  unfold splitFirst
  have hdata : (t ++ ", " ++ u).data = t.data ++ ',' :: (' ' :: u.data) := by
    show (t.data ++ [',', ' ']) ++ u.data = _
    simp only [List.append_assoc, List.cons_append, List.nil_append]
  rw [hdata, splitFirstAux_exact _ (by simpa [strHasChar] using ht)]
  rfl

theorem strStartsWith_star {s : String} {rest : List Char}
    (h : s.data = '*' :: rest) : strStartsWith s "*" = true := by
  unfold strStartsWith
  rw [h]
  simp [List.isPrefixOf]

theorem pyStrip_decomp {s : String} (h : pyStrip s = s) :
    stripLeftC wsChars s.data = s.data ∧ stripRightC wsChars s.data = s.data :=
  stripC_self_decomp (pyStrip_data_of_fix h)

/-- A stripped text wrapped as `"  + " + a` stores as `"+ " + a`
(or bare `"+"` when empty). -/
theorem ach_line_store (a : String) (ha : pyStrip a = a) (hne : a ≠ "") :
    pyStrip ("  + " ++ a) = "+ " ++ a := by
  apply str_ext
  show stripC wsChars (' ' :: ' ' :: '+' :: ' ' :: a.data) = '+' :: ' ' :: a.data
  unfold stripC
  rw [stripLeftC_cons_in _ (by decide), stripLeftC_cons_in _ (by decide),
    stripLeftC_cons_notin _ (by decide),
    show '+' :: ' ' :: a.data = ['+', ' '] ++ a.data from rfl,
    stripRightC_self_append _ (pyStrip_decomp ha).2
      (by intro he; exact hne (str_ext (by rw [he])))]

theorem pyStrip_space_cons (a : String) (ha : pyStrip a = a) :
    pyStrip (" " ++ a) = a := by
  apply str_ext
  show stripC wsChars (' ' :: a.data) = a.data
  unfold stripC
  rw [stripLeftC_cons_in _ (by decide), (pyStrip_decomp ha).1,
    (pyStrip_decomp ha).2]

/-- A marker-prefixed line with a well-behaved payload stores
unchanged. -/
theorem star_line_store (n : String) (hlast : stripRightC wsChars n.data = n.data)
    (hne : n ≠ "") : pyStrip ("* " ++ n) = "* " ++ n := by
  apply pyStrip_fix_of_data
  show stripC wsChars ('*' :: ' ' :: n.data) = '*' :: ' ' :: n.data
  unfold stripC
  rw [stripLeftC_cons_notin _ (by decide),
    show '*' :: ' ' :: n.data = ['*', ' '] ++ n.data from rfl,
    stripRightC_self_append _ hlast
      (by intro he; exact hne (str_ext (by rw [he])))]

/-- Stripping the `"* "` marker from a one-payload line. -/
theorem star_line_marker_strip (n : String) (hh : headOk n = true)
    (hl : lastOk n = true) : pyStripChars "* " ("* " ++ n) = n := by
  by_cases hne : n = ""
  · subst hne; rfl
  · apply str_ext
    show stripC starSp ('*' :: ' ' :: n.data) = n.data
    unfold stripC
    rw [stripLeftC_cons_in _ (by decide), stripLeftC_cons_in _ (by decide)]
    cases hn : n.data with
    | nil => exact absurd (str_ext (by rw [hn])) hne
    | cons c cs =>
      unfold headOk at hh
      rw [hn] at hh
      rw [stripLeftC_cons_notin _ (by simpa using hh), ← hn,
        lastOk_stripRight_starSp hl]

/-! Per-line interpreter lemmas -/

theorem renderWorkEdu_nil : renderWorkEdu [] = [] := rfl

theorem renderWorkEdu_empty_cons (rest : List String) :
    renderWorkEdu ("" :: rest) = renderWorkEdu rest := rfl

/-- General helper: a `+`-line renders as a bullet and interpretation
continues (no open-entry state exists in the code). -/
theorem renderWorkEdu_plus (t : String) (rest : List String) :
    renderWorkEdu (("+" ++ t) :: rest)
      = renderBulletLines (pyStrip t) ++ renderWorkEdu rest := by
  unfold renderWorkEdu
  simp only [List.flatMap_cons]
  have h1 : strStartsWith ("+" ++ t) "*" = false := rfl
  have h2 : strStartsWith ("+" ++ t) "+" = true := strStartsWith_append "+" t
  rw [h1, h2]
  simp only [Bool.false_eq_true, if_false, if_true]
  rw [show strDrop ("+" ++ t) 1 = t from rfl]

theorem renderWorkEdu_ach (a : String) (ha : pyStrip a = a) (rest : List String) :
    renderWorkEdu (pyStrip ("  + " ++ a) :: rest)
      = renderBulletLines a ++ renderWorkEdu rest := by
  by_cases hne : a = ""
  · subst hne
    rfl
  · rw [ach_line_store a ha hne,
      show ("+ " ++ a : String) = "+" ++ (" " ++ a) from rfl,
      renderWorkEdu_plus, pyStrip_space_cons a ha]

theorem renderWorkEdu_entry (t u : String) (rest : List String)
    (ht1 : headOk t = true) (ht2 : strHasChar ',' t = false)
    (hu1 : lastOk u = true) (hu2 : u ≠ "") :
    renderWorkEdu (pyStrip ("* " ++ t ++ ", " ++ u) :: rest)
      = RLine.eTitle t :: RLine.eCompany (" " ++ u) :: renderWorkEdu rest := by
  rw [entry_line_strip_fix t u hu1 hu2]
  unfold renderWorkEdu
  simp only [List.flatMap_cons]
  rw [strStartsWith_star (show ("* " ++ t ++ ", " ++ u).data = '*' :: _ from rfl)]
  simp only [if_true]
  unfold renderEntryLine
  rw [entry_line_marker_strip t u ht1 hu1 hu2, entry_line_split t u ht2]
  rfl

theorem renderSkillsW_nil : renderSkillsW [] = [] := rfl

theorem renderSkillsW_empty_cons (rest : List String) :
    renderSkillsW ("" :: rest) = renderSkillsW rest := rfl

theorem renderSkillsW_skill (s : String) (hs : pyStrip s = s) (rest : List String) :
    renderSkillsW (pyStrip ("* " ++ s) :: rest)
      = RLine.skill s :: renderSkillsW rest := by
  by_cases hne : s = ""
  · subst hne
    rfl
  · rw [star_line_store s (pyStrip_decomp hs).2 hne]
    unfold renderSkillsW
    simp only [List.flatMap_cons]
    rw [strStartsWith_star (show ("* " ++ s).data = '*' :: _ from rfl)]
    simp only [if_true]
    rw [show strDrop ("* " ++ s) 1 = " " ++ s from rfl, pyStrip_space_cons s hs]
    rfl

theorem renderProjectsW_nil : renderProjectsW [] = [] := rfl

theorem renderProjectsW_empty_cons (rest : List String) :
    renderProjectsW ("" :: rest) = renderProjectsW rest := rfl

theorem renderProjectsW_plus (t : String) (rest : List String) :
    renderProjectsW (("+" ++ t) :: rest)
      = renderBulletLines (pyStrip t) ++ renderProjectsW rest := by
  unfold renderProjectsW
  simp only [List.flatMap_cons]
  have h1 : strStartsWith ("+" ++ t) "*" = false := rfl
  have h2 : strStartsWith ("+" ++ t) "+" = true := strStartsWith_append "+" t
  rw [h1, h2]
  simp only [Bool.false_eq_true, if_false, if_true]
  rw [show strDrop ("+" ++ t) 1 = t from rfl]

theorem renderProjectsW_ach (a : String) (ha : pyStrip a = a) (rest : List String) :
    renderProjectsW (pyStrip ("  + " ++ a) :: rest)
      = renderBulletLines a ++ renderProjectsW rest := by
  by_cases hne : a = ""
  · subst hne
    rfl
  · rw [ach_line_store a ha hne,
      show ("+ " ++ a : String) = "+" ++ (" " ++ a) from rfl,
      renderProjectsW_plus, pyStrip_space_cons a ha]

theorem renderProjectsW_title (n : String) (hh : headOk n = true)
    (hl : lastOk n = true) (rest : List String) :
    renderProjectsW (pyStrip ("* " ++ n) :: rest)
      = RLine.eTitle n :: renderProjectsW rest := by
  by_cases hne : n = ""
  · subst hne
    rfl
  · rw [star_line_store n (lastOk_stripRight_ws hl) hne]
    unfold renderProjectsW
    simp only [List.flatMap_cons]
    rw [strStartsWith_star (show ("* " ++ n).data = '*' :: _ from rfl)]
    simp only [if_true]
    rw [star_line_marker_strip n hh hl]
    rfl

/-! Group-level interpreter lemmas -/

theorem renderWorkEdu_achs (as : List String)
    (h : ∀ a ∈ as, pyStrip a = a) (rest : List String) :
    renderWorkEdu ((as.map (fun a => "  + " ++ a)).map pyStrip ++ rest)
      = as.flatMap renderBulletLines ++ renderWorkEdu rest := by
  induction as with
  | nil => simp
  | cons a as ih =>
    simp only [List.map_cons, List.cons_append, List.flatMap_cons]
    rw [renderWorkEdu_ach a (h a (List.mem_cons_self a as)) _,
      ih (fun x hx => h x (List.mem_cons_of_mem a hx))]
    simp

theorem renderProjectsW_achs (as : List String)
    (h : ∀ a ∈ as, pyStrip a = a) (rest : List String) :
    renderProjectsW ((as.map (fun a => "  + " ++ a)).map pyStrip ++ rest)
      = as.flatMap renderBulletLines ++ renderProjectsW rest := by
  induction as with
  | nil => simp
  | cons a as ih =>
    simp only [List.map_cons, List.cons_append, List.flatMap_cons]
    rw [renderProjectsW_ach a (h a (List.mem_cons_self a as)) _,
      ih (fun x hx => h x (List.mem_cons_of_mem a hx))]
    simp

theorem renderWorkEdu_job (j : Job) (htame : tameJob j = true) (rest : List String) :
    renderWorkEdu ((jobLines j).map pyStrip ++ rest)
      = expectedJobR j ++ renderWorkEdu rest := by
  simp only [tameJob, Bool.and_eq_true, Bool.not_eq_eq_eq_not, Bool.not_true,
    List.all_eq_true, decide_eq_true_eq] at htame
  obtain ⟨⟨⟨⟨hh, hc⟩, hl⟩, hne⟩, hach⟩ := htame
  unfold jobLines jobHeader expectedJobR
  simp only [List.map_cons, List.map_append, List.cons_append]
  rw [renderWorkEdu_entry _ _ _ hh (by simpa using hc) hl (by simpa using hne)]
  rw [show pyStrip "" = "" from rfl]
  simp only [List.map_nil, List.nil_append, List.append_assoc, List.singleton_append]
  rw [renderWorkEdu_achs _ hach ("" :: rest), renderWorkEdu_empty_cons]

theorem renderWorkEdu_edu (e : Edu) (htame : tameEdu e = true) (rest : List String) :
    renderWorkEdu ((eduLines e).map pyStrip ++ rest)
      = expectedEduR e ++ renderWorkEdu rest := by
  simp only [tameEdu, Bool.and_eq_true, Bool.not_eq_eq_eq_not, Bool.not_true,
    List.all_eq_true, decide_eq_true_eq] at htame
  obtain ⟨⟨⟨⟨hh, hc⟩, hl⟩, hne⟩, hach⟩ := htame
  unfold eduLines eduHeader expectedEduR
  simp only [List.map_cons, List.map_append, List.cons_append]
  rw [renderWorkEdu_entry _ _ _ hh (by simpa using hc) hl (by simpa using hne)]
  rw [show pyStrip "" = "" from rfl]
  simp only [List.map_nil, List.nil_append, List.append_assoc, List.singleton_append]
  rw [renderWorkEdu_achs _ hach ("" :: rest), renderWorkEdu_empty_cons]

theorem renderProjectsW_proj (p : Project) (htame : tameProj p = true)
    (rest : List String) :
    renderProjectsW ((projLines p).map pyStrip ++ rest)
      = expectedProjR p ++ renderProjectsW rest := by
  simp only [tameProj, Bool.and_eq_true, List.all_eq_true, decide_eq_true_eq] at htame
  obtain ⟨⟨hh, hl⟩, hach⟩ := htame
  unfold projLines expectedProjR
  simp only [List.map_cons, List.map_append, List.cons_append]
  rw [renderProjectsW_title _ hh hl]
  rw [show pyStrip "" = "" from rfl]
  simp only [List.map_nil, List.nil_append, List.append_assoc, List.singleton_append]
  rw [renderProjectsW_achs _ hach ("" :: rest), renderProjectsW_empty_cons]

theorem renderWorkEdu_jobs (jobs : List Job)
    (h : ∀ j ∈ jobs, tameJob j = true) :
    renderWorkEdu ((jobs.flatMap jobLines).map pyStrip)
      = jobs.flatMap expectedJobR := by
  have main : ∀ (js : List Job), (∀ j ∈ js, tameJob j = true) → ∀ rest,
      renderWorkEdu ((js.flatMap jobLines).map pyStrip ++ rest)
        = js.flatMap expectedJobR ++ renderWorkEdu rest := by
    intro js hjs
    induction js with
    | nil => intro rest; simp
    | cons j js ih =>
      intro rest
      simp only [List.flatMap_cons, List.map_append, List.append_assoc]
      rw [renderWorkEdu_job j (hjs j (List.mem_cons_self j js)) _,
        ih (fun x hx => hjs x (List.mem_cons_of_mem j hx)) rest]
  have := main jobs h []
  simpa [renderWorkEdu_nil] using this

theorem renderWorkEdu_edus (es : List Edu)
    (h : ∀ e ∈ es, tameEdu e = true) :
    renderWorkEdu ((es.flatMap eduLines).map pyStrip)
      = es.flatMap expectedEduR := by
  have main : ∀ (xs : List Edu), (∀ e ∈ xs, tameEdu e = true) → ∀ rest,
      renderWorkEdu ((xs.flatMap eduLines).map pyStrip ++ rest)
        = xs.flatMap expectedEduR ++ renderWorkEdu rest := by
    intro xs hxs
    induction xs with
    | nil => intro rest; simp
    | cons e es ih =>
      intro rest
      simp only [List.flatMap_cons, List.map_append, List.append_assoc]
      rw [renderWorkEdu_edu e (hxs e (List.mem_cons_self e es)) _,
        ih (fun x hx => hxs x (List.mem_cons_of_mem e hx)) rest]
  have := main es h []
  simpa [renderWorkEdu_nil] using this

theorem renderProjectsW_projs (ps : List Project)
    (h : ∀ p ∈ ps, tameProj p = true) :
    renderProjectsW ((ps.flatMap projLines).map pyStrip)
      = ps.flatMap expectedProjR := by
  have main : ∀ (xs : List Project), (∀ p ∈ xs, tameProj p = true) → ∀ rest,
      renderProjectsW ((xs.flatMap projLines).map pyStrip ++ rest)
        = xs.flatMap expectedProjR ++ renderProjectsW rest := by
    intro xs hxs
    induction xs with
    | nil => intro rest; simp
    | cons p ps ih =>
      intro rest
      simp only [List.flatMap_cons, List.map_append, List.append_assoc]
      rw [renderProjectsW_proj p (hxs p (List.mem_cons_self p ps)) _,
        ih (fun x hx => hxs x (List.mem_cons_of_mem p hx)) rest]
  have := main ps h []
  simpa [renderProjectsW_nil] using this

theorem renderSkillsW_skills (ss : List String)
    (h : ∀ s ∈ ss, pyStrip s = s) (rest : List String) :
    renderSkillsW ((ss.map (fun s => "* " ++ s)).map pyStrip ++ rest)
      = ss.map RLine.skill ++ renderSkillsW rest := by
  induction ss with
  | nil => simp
  | cons x xs ih =>
    simp only [List.map_cons, List.cons_append]
    rw [renderSkillsW_skill x (h x (List.mem_cons_self x xs)) _,
      ih (fun s hs => h s (List.mem_cons_of_mem x hs))]

theorem renderContactW_pair (cj : String) :
    renderContactW [cj, ""]
      = (textwrapWrap cj 100).map RLine.contact := by
  unfold renderContactW
  by_cases h : cj = ""
  · subst h
    rfl
  · rw [show ([cj, ""].filter (fun c => !(c = ""))) = [cj] by
        simp [List.filter, h],
      strIntercalate_single]

theorem renderDefaultW_pair (sm : String) :
    renderDefaultW [sm, ""]
      = (textwrapWrap sm 100).map RLine.plainLine := by
  unfold renderDefaultW
  by_cases h : sm = ""
  · subst h
    rfl
  · simp only [List.flatMap_cons, List.flatMap_nil, if_neg h]
    simp

/-! Section-splitter computation lemmas -/

theorem parseGo_nil_some (k : String) (c : List String)
    (dict : List (String × List String)) :
    parseGo (some (k, c)) dict []
      = if c.isEmpty then dict else dictSet dict k c := rfl

theorem parseGo_nil_none (dict : List (String × List String)) :
    parseGo none dict [] = dict := rfl

theorem parseGo_header_some {l : String} {k : String}
    (hk : matchHeader l = some k) (hne : ¬ k = "") (k0 : String)
    (c0 : List String) (dict : List (String × List String)) (ls : List String) :
    parseGo (some (k0, c0)) dict (l :: ls)
      = parseGo (some (k, [])) (dictSet dict k0 c0) ls := by
  conv_lhs => rw [parseGo]
  rw [hk]
  simp only [if_neg hne]

theorem parseGo_header_none {l : String} {k : String}
    (hk : matchHeader l = some k) (hne : ¬ k = "")
    (dict : List (String × List String)) (ls : List String) :
    parseGo none dict (l :: ls) = parseGo (some (k, [])) dict ls := by
  conv_lhs => rw [parseGo]
  rw [hk]
  simp only [if_neg hne]

theorem parseGo_content {l : String} (hk : matchHeader l = none) (k0 : String)
    (c0 : List String) (dict : List (String × List String)) (ls : List String) :
    parseGo (some (k0, c0)) dict (l :: ls)
      = parseGo (some (k0, c0 ++ [pyStrip l])) dict ls := by
  conv_lhs => rw [parseGo]
  rw [hk]

theorem parseGo_skip {l : String} (hk : matchHeader l = none)
    (dict : List (String × List String)) (ls : List String) :
    parseGo none dict (l :: ls) = parseGo none dict ls := by
  conv_lhs => rw [parseGo]
  rw [hk]

theorem parseGo_content_many (ls : List String)
    (h : ∀ l ∈ ls, matchHeader l = none) (k0 : String) (c0 : List String)
    (dict : List (String × List String)) (rest : List String) :
    parseGo (some (k0, c0)) dict (ls ++ rest)
      = parseGo (some (k0, c0 ++ ls.map pyStrip)) dict rest := by
  induction ls generalizing c0 with
  | nil => simp
  | cons x xs ih =>
    rw [List.cons_append, parseGo_content (h x (List.mem_cons_self x xs)),
      ih (fun l hl => h l (List.mem_cons_of_mem x hl))]
    simp

theorem dictSet_fresh (dict : List (String × List String)) (k : String)
    (v : List String) (h : dict.any (fun p => p.1 = k) = false) :
    dictSet dict k v = dict ++ [(k, v)] := by
  simp [dictSet, h]

theorem lookup_append_of_some {a : String} {d1 : List (String × List String)}
    {v : List String} (d2 : List (String × List String))
    (h : d1.lookup a = some v) : (d1 ++ d2).lookup a = some v := by
  induction d1 with
  | nil => simp [List.lookup] at h
  | cons p t ih =>
    rcases p with ⟨k, w⟩
    rw [List.cons_append]
    simp only [List.lookup] at h ⊢
    cases hak : (a == k) with
    | true => rw [hak] at h; simpa using h
    | false =>
      rw [hak] at h
      exact ih h

theorem lookup_append_of_none {a : String} {d1 : List (String × List String)}
    (d2 : List (String × List String))
    (h : d1.lookup a = none) : (d1 ++ d2).lookup a = d2.lookup a := by
  induction d1 with
  | nil => simp
  | cons p t ih =>
    rcases p with ⟨k, w⟩
    rw [List.cons_append]
    simp only [List.lookup] at h ⊢
    cases hak : (a == k) with
    | true => rw [hak] at h; simp at h
    | false =>
      rw [hak] at h
      exact ih h

/-- No serialized skill line is mistaken for a section header. -/
theorem skills_no_header (ss : List String) :
    ∀ l ∈ ss.map (fun s => "* " ++ s), matchHeader l = none := by
  intro l hl
  rcases List.mem_map.mp hl with ⟨s, _, rfl⟩
  exact matchHeader_star_space_one s

/-- No serialized work-experience line is mistaken for a section
header. -/
theorem work_no_header (jobs : List Job) :
    ∀ l ∈ jobs.flatMap jobLines, matchHeader l = none := by
  intro l hl
  rcases List.mem_flatMap.mp hl with ⟨j, _, hlj⟩
  unfold jobLines at hlj
  rcases List.mem_cons.mp hlj with rfl | h2
  · exact matchHeader_star_space _ _
  · rcases List.mem_append.mp h2 with h3 | h3
    · rcases List.mem_map.mp h3 with ⟨a, _, rfl⟩
      exact matchHeader_indent_plus a
    · rw [List.mem_singleton.mp h3]
      exact matchHeader_empty

theorem edu_no_header (es : List Edu) :
    ∀ l ∈ es.flatMap eduLines, matchHeader l = none := by
  intro l hl
  rcases List.mem_flatMap.mp hl with ⟨e, _, hle⟩
  unfold eduLines at hle
  rcases List.mem_cons.mp hle with rfl | h2
  · exact matchHeader_star_space _ _
  · rcases List.mem_append.mp h2 with h3 | h3
    · rcases List.mem_map.mp h3 with ⟨a, _, rfl⟩
      exact matchHeader_indent_plus a
    · rw [List.mem_singleton.mp h3]
      exact matchHeader_empty

theorem proj_no_header (ps : List Project) :
    ∀ l ∈ ps.flatMap projLines, matchHeader l = none := by
  intro l hl
  rcases List.mem_flatMap.mp hl with ⟨p, _, hlp⟩
  unfold projLines at hlp
  rcases List.mem_cons.mp hlp with rfl | h2
  · exact matchHeader_star_space_one _
  · rcases List.mem_append.mp h2 with h3 | h3
    · rcases List.mem_map.mp h3 with ⟨a, _, rfl⟩
      exact matchHeader_indent_plus a
    · rw [List.mem_singleton.mp h3]
      exact matchHeader_empty

/-- C1 (amended): for a well-formed Document (`tameDoc`: no embedded
newlines, undecorated name, stripped fields that do not mimic headers,
comma-free titles, non-empty company remainders), parsing the
serialized text recovers the name, the skills list, each entry's
title, and each achievement/detail (as its wrapped bullet cells) — but
the contact fields come back only as one `" | "`-joined line, and
company, location and duration come back only as one concatenated
remainder string after the first comma; a document without truthy
projects produces no Personal Projects section at all. -/
theorem c1_roundtrip_amended (d : Document) (h : tameDoc d = true) :
    (parseResume (createTextResume d)).name = nameD d
    ∧ renderContactW (sectionContent (parseResume (createTextResume d)) "Contact Information")
        = (textwrapWrap (strIntercalate " | " (contactParts7 d.contact_info)) 100).map
            RLine.contact
    ∧ renderDefaultW (sectionContent (parseResume (createTextResume d)) "Professional Summary")
        = (textwrapWrap (d.professional_summary.getD "") 100).map RLine.plainLine
    ∧ renderSkillsW (sectionContent (parseResume (createTextResume d)) "Skills")
        = d.skills.map RLine.skill
    ∧ renderWorkEdu (sectionContent (parseResume (createTextResume d)) "Work Experience")
        = d.work_experience.flatMap expectedJobR
    ∧ renderWorkEdu (sectionContent (parseResume (createTextResume d)) "Education")
        = d.education.flatMap expectedEduR
    ∧ (truthyProj d.projects = true →
        renderProjectsW (sectionContent (parseResume (createTextResume d)) "Personal Projects")
          = (d.projects.getD []).flatMap expectedProjR)
    ∧ (truthyProj d.projects = false →
        (parseResume (createTextResume d)).sections.lookup "Personal Projects" = none) := by
  simp only [tameDoc, Bool.and_eq_true, List.all_eq_true, decide_eq_true_eq,
    Option.isNone_iff_eq_none] at h
  obtain ⟨⟨⟨⟨⟨⟨⟨⟨⟨hnl, hname⟩, hcj⟩, hcjh⟩, hsm⟩, hsmh⟩, hsk⟩, hwork⟩, hedu⟩, hproj⟩ := h
  have hLne : textResumeLines d ≠ [] := by
    unfold textResumeLines
    simp
  have hsplit : pySplitLines (createTextResume d) = textResumeLines d := by
    unfold createTextResume
    exact pySplitLines_joinLines _ hLne hnl
  have hpname : (parseResume (createTextResume d)).name = nameD d := by
    unfold parseResume
    simp only [hsplit]
    rw [show (textResumeLines d).headD "" = "**" ++ nameD d ++ "**" from rfl]
    exact name_star_wrap _ hname
  have htail : (textResumeLines d).tail
      = "" :: "**Contact Information:**"
        :: strIntercalate " | " (contactParts7 d.contact_info) :: ""
        :: "**Professional Summary:**" :: d.professional_summary.getD "" :: ""
        :: "**Skills:**"
        :: (d.skills.map (fun s => "* " ++ s) ++ "" :: "**Work Experience:**"
        :: (d.work_experience.flatMap jobLines ++ "**Education:**"
        :: (d.education.flatMap eduLines
            ++ (if truthyProj d.projects then
                  "**Personal Projects:**" :: (d.projects.getD []).flatMap projLines
                else [])))) := by
    unfold textResumeLines
    simp [List.append_assoc]
  have hrun : (parseResume (createTextResume d)).sections
      = parseGo (some ("Education", (d.education.flatMap eduLines).map pyStrip))
          [("Contact Information", [strIntercalate " | " (contactParts7 d.contact_info), ""]),
           ("Professional Summary", [d.professional_summary.getD "", ""]),
           ("Skills", (d.skills.map (fun s => "* " ++ s)).map pyStrip ++ [""]),
           ("Work Experience", (d.work_experience.flatMap jobLines).map pyStrip)]
          (if truthyProj d.projects then
            "**Personal Projects:**" :: (d.projects.getD []).flatMap projLines
          else []) := by
    unfold parseResume
    simp only [hsplit]
    rw [htail]
    rw [parseGo_skip matchHeader_empty,
      parseGo_header_none
        (show matchHeader "**Contact Information:**" = some "Contact Information" from rfl)
        (by decide),
      parseGo_content hcjh, parseGo_content matchHeader_empty,
      parseGo_header_some
        (show matchHeader "**Professional Summary:**" = some "Professional Summary" from rfl)
        (by decide),
      parseGo_content hsmh, parseGo_content matchHeader_empty,
      parseGo_header_some
        (show matchHeader "**Skills:**" = some "Skills" from rfl)
        (by decide),
      parseGo_content_many _ (skills_no_header d.skills),
      parseGo_content matchHeader_empty,
      parseGo_header_some
        (show matchHeader "**Work Experience:**" = some "Work Experience" from rfl)
        (by decide),
      parseGo_content_many _ (work_no_header d.work_experience),
      parseGo_header_some
        (show matchHeader "**Education:**" = some "Education" from rfl)
        (by decide),
      parseGo_content_many _ (edu_no_header d.education)]
    rw [hcj, hsm]
    simp [dictSet, show pyStrip "" = "" from rfl]
  have hsk2 : renderSkillsW (List.map pyStrip (List.map (fun s => "* " ++ s) d.skills) ++ [""])
      = d.skills.map RLine.skill := by
    rw [renderSkillsW_skills d.skills hsk [""], show renderSkillsW [""] = [] from rfl]
    simp
  have hwe2 : renderWorkEdu (List.map pyStrip (d.work_experience.flatMap jobLines))
      = d.work_experience.flatMap expectedJobR := renderWorkEdu_jobs _ hwork
  have hed2 : renderWorkEdu (List.map pyStrip (d.education.flatMap eduLines))
      = d.education.flatMap expectedEduR := renderWorkEdu_edus _ hedu
  have hct2 : renderContactW [strIntercalate " | " (contactParts7 d.contact_info), ""]
      = (textwrapWrap (strIntercalate " | " (contactParts7 d.contact_info)) 100).map
          RLine.contact := renderContactW_pair _
  have hps2 : renderDefaultW [d.professional_summary.getD "", ""]
      = (textwrapWrap (d.professional_summary.getD "") 100).map RLine.plainLine :=
    renderDefaultW_pair _
  cases htp : truthyProj d.projects with
  | true =>
    have hplx : ∃ pl, d.projects = some pl ∧ pl.isEmpty = false := by
      cases hdp : d.projects with
      | none => rw [hdp] at htp; exact absurd htp (by simp [truthyProj])
      | some l =>
        rw [hdp] at htp
        simp only [truthyProj, Bool.not_eq_true'] at htp
        exact ⟨l, rfl, htp⟩
    obtain ⟨pl, hpl, hple⟩ := hplx
    have hprojC_ne : (List.map pyStrip ((d.projects.getD []).flatMap projLines)).isEmpty
        = false := by
      rw [hpl]
      cases pl with
      | nil => simp at hple
      | cons p ps => simp [projLines]
    have hfinal : (parseResume (createTextResume d)).sections
        = [("Contact Information",
              [strIntercalate " | " (contactParts7 d.contact_info), ""]),
           ("Professional Summary", [d.professional_summary.getD "", ""]),
           ("Skills", List.map pyStrip (List.map (fun s => "* " ++ s) d.skills) ++ [""]),
           ("Work Experience", List.map pyStrip (d.work_experience.flatMap jobLines)),
           ("Education", List.map pyStrip (d.education.flatMap eduLines)),
           ("Personal Projects",
              List.map pyStrip ((d.projects.getD []).flatMap projLines))] := by
      rw [hrun, htp, if_pos rfl,
        parseGo_header_some
          (show matchHeader "**Personal Projects:**" = some "Personal Projects" from rfl)
          (by decide),
        show (d.projects.getD []).flatMap projLines
          = (d.projects.getD []).flatMap projLines ++ [] from (List.append_nil _).symm,
        parseGo_content_many _ (proj_no_header _), parseGo_nil_some]
      simp only [List.nil_append]
      rw [hprojC_ne]
      simp [dictSet]
    refine ⟨hpname, ?_, ?_, ?_, ?_, ?_, ?_, ?_⟩
    · unfold sectionContent
      rw [hfinal]
      exact hct2
    · unfold sectionContent
      rw [hfinal]
      exact hps2
    · unfold sectionContent
      rw [hfinal]
      exact hsk2
    · unfold sectionContent
      rw [hfinal]
      exact hwe2
    · unfold sectionContent
      rw [hfinal]
      exact hed2
    · intro _
      unfold sectionContent
      rw [hfinal]
      exact renderProjectsW_projs (d.projects.getD []) hproj
    · intro hfalse
      exact absurd hfalse (by simp)
  | false =>
    have hbase : (parseResume (createTextResume d)).sections
        = parseGo (some ("Education", List.map pyStrip (d.education.flatMap eduLines)))
            [("Contact Information",
                [strIntercalate " | " (contactParts7 d.contact_info), ""]),
             ("Professional Summary", [d.professional_summary.getD "", ""]),
             ("Skills", List.map pyStrip (List.map (fun s => "* " ++ s) d.skills) ++ [""]),
             ("Work Experience", List.map pyStrip (d.work_experience.flatMap jobLines))]
            [] := by
      rw [hrun, htp, if_neg (by simp)]
    cases hededu : d.education with
    | nil =>
      have hfinal : (parseResume (createTextResume d)).sections
          = [("Contact Information",
                [strIntercalate " | " (contactParts7 d.contact_info), ""]),
             ("Professional Summary", [d.professional_summary.getD "", ""]),
             ("Skills", List.map pyStrip (List.map (fun s => "* " ++ s) d.skills) ++ [""]),
             ("Work Experience",
                List.map pyStrip (d.work_experience.flatMap jobLines))] := by
        rw [hbase, parseGo_nil_some, hededu]
        simp
      refine ⟨hpname, ?_, ?_, ?_, ?_, ?_, ?_, ?_⟩
      · unfold sectionContent
        rw [hfinal]
        exact hct2
      · unfold sectionContent
        rw [hfinal]
        exact hps2
      · unfold sectionContent
        rw [hfinal]
        exact hsk2
      · unfold sectionContent
        rw [hfinal]
        exact hwe2
      · unfold sectionContent
        rw [hfinal]
        rfl
      · intro htrue
        exact absurd htrue (by simp)
      · intro _
        rw [hfinal]
        rfl
    | cons e es =>
      have heduC_ne : (List.map pyStrip (d.education.flatMap eduLines)).isEmpty
          = false := by
        rw [hededu]
        simp [eduLines]
      have hfinal : (parseResume (createTextResume d)).sections
          = [("Contact Information",
                [strIntercalate " | " (contactParts7 d.contact_info), ""]),
             ("Professional Summary", [d.professional_summary.getD "", ""]),
             ("Skills", List.map pyStrip (List.map (fun s => "* " ++ s) d.skills) ++ [""]),
             ("Work Experience", List.map pyStrip (d.work_experience.flatMap jobLines)),
             ("Education", List.map pyStrip (d.education.flatMap eduLines))] := by
        rw [hbase, parseGo_nil_some, heduC_ne]
        simp [dictSet]
      refine ⟨hpname, ?_, ?_, ?_, ?_, ?_, ?_, ?_⟩
      · unfold sectionContent
        rw [hfinal]
        exact hct2
      · unfold sectionContent
        rw [hfinal]
        exact hps2
      · unfold sectionContent
        rw [hfinal]
        exact hsk2
      · unfold sectionContent
        rw [hfinal]
        exact hwe2
      · unfold sectionContent
        rw [hfinal, ← hededu]
        exact hed2
      · intro htrue
        exact absurd htrue (by simp)
      · intro _
        rw [hfinal]
        rfl

/-- C1 (counterexample): serializing a document whose job title holds
a comma and then parsing the result does NOT recover the title — the
interpreter splits the header at its FIRST comma, so the recovered
title is the text before that comma, which differs from the original
even modulo whitespace; company, location and duration come back only
as one concatenated string, and the contact fields only as one joined
line. -/
theorem c1_counterexample :
    renderWorkEdu (sectionContent (parseResume (createTextResume c1CounterDoc))
        "Work Experience")
      = [RLine.eTitle "Head of Platform",
          RLine.eCompany " EMEA, Acme (Remote) - 2020 to 2023",
          RLine.bulletGlyph, RLine.bulletHead "Did stuff"]
    ∧ wsWords "Head of Platform" ≠ wsWords "Head of Platform, EMEA"
    ∧ renderContactW (sectionContent (parseResume (createTextResume c1CounterDoc))
        "Contact Information")
      = [RLine.contact "Berlin | jane@site.io"] := by
  refine ⟨by rfl, by decide, by rfl⟩

/-- C1 witness: the amended round trip at a concrete well-formed
document. -/
theorem c1_roundtrip_amended_witness :
    (parseResume (createTextResume c1TameDoc)).name = nameD c1TameDoc
    ∧ renderSkillsW (sectionContent (parseResume (createTextResume c1TameDoc)) "Skills")
        = c1TameDoc.skills.map RLine.skill
    ∧ renderWorkEdu (sectionContent (parseResume (createTextResume c1TameDoc))
          "Work Experience")
        = c1TameDoc.work_experience.flatMap expectedJobR := by
  have h := c1_roundtrip_amended c1TameDoc (by decide)
  exact ⟨h.1, h.2.2.2.1, h.2.2.2.2.1⟩

end ResumeGen
